import Mathlib

/-!
# Verification of the jambda lambda-diagram engine

Shallow embedding of the lambda-expression parser
(`src/lib/visualizer/parser.js`, strict variant), the internal term model,
Church-numeral substitution and De Bruijn binding resolution
(`src/lib/visualizer/tromp-diagram.ts`), the Tromp-diagram layout and SVG
generation (`drawTermExact` and `generateDiagram` in the same file), and the
SVG-to-character-grid renderer (`src/unnamed/part_005`).

JavaScript numbers are modelled as exact rationals (`ℚ`); the quantities the
claims compare (fixed constants such as 0.3 vs 0.24, integer grid indices)
are far from any binary floating-point rounding boundary, so every comparison
in this file has the same verdict as the double-precision original.  `NaN`
(produced by `parseFloat`/`parseInt` on non-numeric text) is modelled as
`none` in an `Option` type, with the JS propagation rules (any arithmetic on
NaN is NaN, every ordering comparison involving NaN is false, `===` on two
NaNs is false) written out explicitly.
-/

deriving instance DecidableEq for Except

namespace Jambda

/-! ## Tokenizer (`src/lib/visualizer/parser.js`, strict variant, lines 266-431)

The repository file `parser.js` contains two concatenated variants of the
same module: a lenient one that recovers from malformed input with
`console.warn`, and a strict one whose `expect` throws
`Expected ${type}, got ${this.token().type}`.  The strict variant is the
spec's reference behaviour ("the reference behavior is strict") and is the
one embedded here. -/

inductive TokenType where
  | LAMBDA | DOT | LPAREN | RPAREN | VAR | EOF
deriving DecidableEq, Repr

/-- The string value of a `TokenType`, as it appears in JS template strings
(the enum values `'LAMBDA'`, `'DOT'`, ... in `parser.js`). -/
def TokenType.str : TokenType → String
  | .LAMBDA => "LAMBDA"
  | .DOT => "DOT"
  | .LPAREN => "LPAREN"
  | .RPAREN => "RPAREN"
  | .VAR => "VAR"
  | .EOF => "EOF"

structure Token where
  type : TokenType
  value : String
deriving DecidableEq, Repr

/-- The JS regex `/\s/` on the characters these claims exercise: ASCII
whitespace.  (JS `\s` also matches exotic Unicode spaces, which no input in
this development contains.) -/
def jsSpace (c : Char) : Bool :=
  c = ' ' ∨ c = '\t' ∨ c = '\n' ∨ c = '\r' ∨ c = '\x0b' ∨ c = '\x0c'

/-- The characters that terminate a variable run: the string `'λ\().'` in
`tokenize` (whitespace is tested separately). -/
def isStopChar (c : Char) : Bool :=
  c = 'λ' ∨ c = '\\' ∨ c = '(' ∨ c = ')' ∨ c = '.'

/-- `/[a-zA-Z0-9_]/` — the character class that starts a variable token. -/
def isVarStart (c : Char) : Bool :=
  c.isAlpha ∨ c.isDigit ∨ c = '_'

/-- A maximal variable run: characters up to the first whitespace or stop
character (the inner `while` loops of `tokenize`). -/
def varRun (cs : List Char) : List Char :=
  cs.takeWhile (fun c => ¬ jsSpace c ∧ ¬ isStopChar c)

/-- One pass of `Parser.tokenize` (strict variant).  Fuel is the number of
remaining characters; every branch consumes at least one character, so
`cs.length` fuel always suffices and the fuel-exhaustion branch is
unreachable from `tokenize`. -/
def tokenizeAux : Nat → List Char → List Token
  | 0, _ => [⟨.EOF, "EOF"⟩]
  | _ + 1, [] => [⟨.EOF, "EOF"⟩]
  | fuel + 1, c :: rest =>
    if jsSpace c then tokenizeAux fuel rest
    else if c = 'λ' ∨ c = '\\' then ⟨.LAMBDA, "λ"⟩ :: tokenizeAux fuel rest
    else if c = '.' then ⟨.DOT, "."⟩ :: tokenizeAux fuel rest
    else if c = '-' then
      match rest with
      | '>' :: rest2 => ⟨.DOT, "."⟩ :: tokenizeAux fuel rest2
      | _ =>
        let run := varRun (c :: rest)
        ⟨.VAR, String.mk run⟩ :: tokenizeAux fuel ((c :: rest).drop run.length)
    else if c = '(' then ⟨.LPAREN, "("⟩ :: tokenizeAux fuel rest
    else if c = ')' then ⟨.RPAREN, ")"⟩ :: tokenizeAux fuel rest
    else if isVarStart c then
      let run := varRun (c :: rest)
      ⟨.VAR, String.mk run⟩ :: tokenizeAux fuel ((c :: rest).drop run.length)
    else tokenizeAux fuel rest

/-- `Parser.tokenize`: scan the whole input; an `EOF` token is appended at
the end (by the base cases of `tokenizeAux`). -/
def tokenize (s : String) : List Token :=
  tokenizeAux s.data.length s.data

/-! ## Recursive-descent parser (strict variant) -/

inductive ParsedTerm where
  | variable (name : String)
  | abstraction (v : String) (body : ParsedTerm)
  | application (left right : ParsedTerm)
deriving DecidableEq, Repr

/-- `Parser.token()`: peek at the current token.  `tokenize` always ends the
list with an `EOF` token, so the default is never consulted on real input. -/
def peek (ts : List Token) : Token :=
  ts.headD ⟨.EOF, "EOF"⟩

/-- `Parser.expect(type)`: check the current token type and advance, or throw
`Expected ${type}, got ${this.token().type}`.  Note the thrown message names
the two token types only — the tokens carry no source position. -/
def expectTok (ty : TokenType) (ts : List Token) : Except String (Token × List Token) :=
  if (peek ts).type = ty then .ok (peek ts, ts.tail)
  else .error ("Expected " ++ ty.str ++ ", got " ++ (peek ts).type.str)

mutual

/-- `Parser.parseTerm` (strict variant, lines 384-405): an abstraction after
`LAMBDA`, otherwise an atom followed by the left-associative application
loop.  Fuel decreases at every nested call; each loop iteration consumes at
least one token, so `2 * tokens + 4` fuel always suffices. -/
def parseTermF : Nat → List Token → Except String (ParsedTerm × List Token)
  | 0, _ => .error "out of fuel"
  | fuel + 1, ts =>
    if (peek ts).type = .LAMBDA then do
      let ts1 := ts.tail
      let (varTok, ts2) ← expectTok .VAR ts1
      let (_, ts3) ← expectTok .DOT ts2
      let (body, ts4) ← parseTermF fuel ts3
      .ok (.abstraction varTok.value body, ts4)
    else do
      let (t, ts1) ← parseAtomF fuel ts
      parseAppLoop fuel t ts1

/-- The `while` loop of `parseTerm`: fold further atoms into a
left-associated `application` until `EOF` or `RPAREN`. -/
def parseAppLoop : Nat → ParsedTerm → List Token → Except String (ParsedTerm × List Token)
  | 0, _, _ => .error "out of fuel"
  | fuel + 1, acc, ts =>
    if (peek ts).type ≠ .EOF ∧ (peek ts).type ≠ .RPAREN then do
      let (right, ts1) ← parseAtomF fuel ts
      parseAppLoop fuel (.application acc right) ts1
    else .ok (acc, ts)

/-- `Parser.parseAtom` (strict variant): a variable, or a parenthesized
expression whose closing parenthesis is `expect`ed. -/
def parseAtomF : Nat → List Token → Except String (ParsedTerm × List Token)
  | 0, _ => .error "out of fuel"
  | fuel + 1, ts =>
    if (peek ts).type = .VAR then .ok (.variable (peek ts).value, ts.tail)
    else if (peek ts).type = .LPAREN then do
      let (t, ts1) ← parseTermF fuel ts.tail
      let (_, ts2) ← expectTok .RPAREN ts1
      .ok (t, ts2)
    else .error ("Unexpected token: " ++ (peek ts).type.str)

end

/-- `Parser.parse` on an already-tokenized list: `parseTerm` then
`expect(EOF)`. -/
def parseTokens (ts : List Token) : Except String ParsedTerm := do
  let (t, rest) ← parseTermF (2 * ts.length + 4) ts
  let (_, _) ← expectTok .EOF rest
  .ok t

/-- `new Parser(input).parse()` with the strict variant. -/
def parse (s : String) : Except String ParsedTerm :=
  parseTokens (tokenize s)

/-! ## Internal term model (`tromp-diagram.ts`)

The TS `Term` class is a tagged union: `VAR` nodes carry a De Bruijn `index`
(a JS number, modelled as `ℤ`) and an optional source `name`; `LAM` nodes
carry the bound-variable name and a body, plus the `isChurchNumeral` /
`numValue` pair set by `createChurchNumeral` (collapsed here into one
`Option ℤ` field, since the source always sets the two together); `APP` nodes
carry function and argument.  The `parent` / `binderId` / `appId` /
`operation` / `churchParent` fields are run-time bookkeeping: `parent` is a
navigation aid reconstructed below by threading ancestor context through the
recursion, `binderId`/`appId` are threaded through the renderer state in the
`drawTermExact` embedding, `operation` and `churchParent` are written but
never read anywhere in the repository and are omitted. -/

inductive Term where
  | var (name : String) (index : ℤ)
  | lam (v : String) (body : Term) (churchNum : Option ℤ)
  | app (func arg : Term)
deriving DecidableEq, Repr

/-- `Term.size()`: `VAR` counts 1, `LAM` counts `1 + body`, `APP` counts
`func + arg` (no +1 for the application node itself, as in the source). -/
def Term.size : Term → ℕ
  | .var _ _ => 1
  | .lam _ b _ => 1 + b.size
  | .app f a => f.size + a.size

/-- The numeric-token test of `convertParsedTerm`
(`!isNaN(Number(variable.name))` followed by `parseInt(variable.name)`),
modelled for the decimal-numeral tokens the claims quantify over: a nonempty
all-digit string yields its value.  (`Number`/`parseInt` additionally accept
signs, exponent and hex forms that can never reach this point unchanged
through the tokenizer's treatment of `.` and that no claim depends on.) -/
def jsNumeric (s : String) : Option ℕ :=
  if s.data ≠ [] ∧ s.data.all Char.isDigit then
    some (s.data.foldl (fun acc c => 10 * acc + (c.toNat - '0'.toNat)) 0)
  else none

/-- `createChurchNumeral`, inner loop: apply `f` (index 1) to the
accumulator `n` times, starting from `x` (index 0). -/
def churchBody : ℕ → Term
  | 0 => .var "x" 0
  | n + 1 => .app (.var "f" 1) (churchBody n)

/-- `createChurchNumeral(n)`: `λf.λx.x` for 0 (no `isChurchNumeral` flag is
set in this branch of the source), and `λf.λx.f(f(...f(x)))` with the outer
lambda flagged as a Church numeral for `n > 0`. -/
def createChurchNumeral (n : ℕ) : Term :=
  if n = 0 then .lam "f" (.lam "x" (.var "x" 0) none) none
  else .lam "f" (.lam "x" (churchBody n) none) (some n)

/-- `convertParsedTerm`: variables become `VAR` nodes with default index 0
unless their text is numeric, in which case the Church numeral is
substituted; abstractions and applications convert structurally. -/
def convertParsedTerm : ParsedTerm → Term
  | .variable name =>
    match jsNumeric name with
    | some n => createChurchNumeral n
    | none => .var name 0
  | .abstraction v b => .lam v (convertParsedTerm b) none
  | .application l r => .app (convertParsedTerm l) (convertParsedTerm r)

/-- The `name || 'x'` / `variable || 'x'` defaulting in `assignIndices`
(the empty string is falsy in JS). -/
def normName (s : String) : String :=
  if s = "" then "x" else s

/-- `assignIndices(term, depth, env)`: the environment is a JS `Map` from
variable name to the depth of its binder (`Map.set` overrides, `Map.get`
returns the latest binding), modelled as a function `String → Option ℕ`.
A bound variable gets index `depth - d - 1` (JS number arithmetic, hence
`ℤ`); a free variable gets the sentinel 0.  The source's trailing
`isChurchNumeral` block only writes the never-read `churchParent` field and
changes no index, so it has no counterpart here. -/
def assignIndices (t : Term) (depth : ℕ) (env : String → Option ℕ) : Term :=
  match t with
  | .var name _ =>
    match env (normName name) with
    | some d => .var name ((depth : ℤ) - (d : ℤ) - 1)
    | none => .var name 0
  | .lam v body cn =>
    .lam v (assignIndices body (depth + 1)
      (fun n => if n = normName v then some depth else env n)) cn
  | .app f a => .app (assignIndices f depth env) (assignIndices a depth env)

/-! ## Specification-side binding resolution

`resolveSpec` renders the spec's description of binding resolution directly:
a variable's De Bruijn index is its distance, counted in enclosing
abstractions, to the nearest (innermost) binder of its name — i.e. the
position of the first occurrence of the name in the stack of enclosing
binder names, innermost first — and an unbound variable gets 0.  The theorem
for C2 proves `assignIndices` equal to this nearest-binder semantics. -/

/-- Position of the first occurrence of `n` in the binder stack
(innermost binder first). -/
def stackIdx : List String → String → Option ℕ
  | [], _ => none
  | v :: rest, n => if n = v then some 0 else (stackIdx rest n).map (· + 1)

/-- Nearest-binder resolution, following the spec's words. -/
def resolveSpec (t : Term) (stack : List String) : Term :=
  match t with
  | .var name _ =>
    match stackIdx stack (normName name) with
    | some i => .var name (i : ℤ)
    | none => .var name 0
  | .lam v body cn => .lam v (resolveSpec body (normName v :: stack)) cn
  | .app f a => .app (resolveSpec f stack) (resolveSpec a stack)

/-- The environment that the recursion of `assignIndices` has built once the
enclosing binders are `stack` (innermost first): each name maps to the depth
at which its innermost binder was entered. -/
def envOfStack (stack : List String) (n : String) : Option ℕ :=
  match stackIdx stack n with
  | some i => some (stack.length - 1 - i)
  | none => none

/-- Checker for claim C7: every variable occurrence whose (defaulted) name
is bound by no enclosing abstraction carries the free-variable sentinel
index 0. -/
def freeVarsZero : Term → List String → Bool
  | .var n i, stack =>
    if (stackIdx stack (normName n)).isSome then true else i = 0
  | .lam v b _, stack => freeVarsZero b (normName v :: stack)
  | .app f a, stack => freeVarsZero f stack && freeVarsZero a stack

/-- Erase the run-time decoration of a `Term` (indices, Church flags) down
to its shape, for the "same shape" comparison of claim C3. -/
def shape : Term → ParsedTerm
  | .var n _ => .variable n
  | .lam v b _ => .abstraction v (shape b)
  | .app f a => .application (shape f) (shape a)

/-- The canonical Church-numeral shape from the spec's words:
`λf.λx.x` for 0, and `λf.λx.f(f(...f(x)))` with `n` nested applications of
the bound variable `f` for `n > 0`. -/
def churchSpecShape (n : ℕ) : ParsedTerm :=
  .abstraction "f" (.abstraction "x" (go n))
where
  go : ℕ → ParsedTerm
    | 0 => .variable "x"
    | k + 1 => .application (.variable "f") (go k)

/-! ## Layout dimensions (`tromp-diagram.ts`) -/

/-- `_getDimensions`: `(width, height)` of a term in layout units. -/
def getDimensions : Term → ℕ × ℕ
  | .var _ _ => (1, 0)
  | .lam _ b _ =>
    let bodyDims := getDimensions b
    (bodyDims.1, 1 + bodyDims.2)
  | .app f a =>
    let funcDims := getDimensions f
    let argDims := getDimensions a
    (funcDims.1 + argDims.1, 1 + max funcDims.2 argDims.2)

/-- `calculateWidth` (the "old dimension calculation" kept in the source). -/
def calculateWidth : Term → ℕ
  | .var _ _ => 1
  | .lam _ b _ => calculateWidth b
  | .app f a => calculateWidth f + calculateWidth a

/-- `calculateHeight`. -/
def calculateHeight : Term → ℕ
  | .var _ _ => 0
  | .lam _ b _ => 1 + calculateHeight b
  | .app f a => 1 + max (calculateHeight f) (calculateHeight a)

/-- `calculateDimensions`: `_getDimensions` plus the size-dependent
additional space (0.5, 1 or 2 units). -/
def calculateDimensions (t : Term) : ℚ × ℚ :=
  let d := getDimensions t
  let size := t.size
  let additionalSpace : ℚ := if size > 50 then 1/2 else if size > 20 then 1 else 2
  ((d.1 : ℚ) + additionalSpace, (d.2 : ℚ) + additionalSpace)

/-! ## JS number semantics for the character-grid renderer

`src/unnamed/part_005` parses coordinate text with `parseFloat`/`parseInt`
and feeds the results through `Math.round`/`Math.min`/`Math.max` and the
line-drawing loops.  Non-numeric text yields `NaN`, which propagates through
arithmetic, makes every ordering comparison false, and makes `===` between
two `NaN`s false.  `NaN` is modelled as `none`.  (Infinities can arise in JS
only from division by a zero denominator; the single place a denominator can
be zero — a document declaring `width="0"`/`height="0"` — is modelled
pointwise where it occurs, collapsing `±Infinity` through the clamp.) -/

/-- JS `===` on two numbers: false if either is `NaN`. -/
def jsEqI (a b : Option ℤ) : Bool :=
  match a, b with
  | some x, some y => x = y
  | _, _ => false

/-- JS `<` on two numbers: false if either is `NaN`. -/
def jsLtI (a b : Option ℤ) : Bool :=
  match a, b with
  | some x, some y => x < y
  | _, _ => false

/-- JS `>` on two numbers: false if either is `NaN`. -/
def jsGtI (a b : Option ℤ) : Bool :=
  match a, b with
  | some x, some y => x > y
  | _, _ => false

/-- JS `<=` on two numbers: false if either is `NaN`. -/
def jsLeI (a b : Option ℤ) : Bool :=
  match a, b with
  | some x, some y => x ≤ y
  | _, _ => false

def jsAddI (a b : Option ℤ) : Option ℤ :=
  match a, b with
  | some x, some y => some (x + y)
  | _, _ => none

def jsSubI (a b : Option ℤ) : Option ℤ :=
  match a, b with
  | some x, some y => some (x - y)
  | _, _ => none

def jsMulI (a b : Option ℤ) : Option ℤ :=
  match a, b with
  | some x, some y => some (x * y)
  | _, _ => none

def jsAbsI (a : Option ℤ) : Option ℤ :=
  a.map (fun x => |x|)

def jsNegI (a : Option ℤ) : Option ℤ :=
  a.map (fun x => -x)

/-- Accumulate a run of decimal digits: value, digit count, and rest. -/
def takeDigits : List Char → ℕ → ℕ → ℕ × ℕ × List Char
  | c :: cs, acc, cnt =>
    if c.isDigit then takeDigits cs (10 * acc + (c.toNat - '0'.toNat)) (cnt + 1)
    else (acc, cnt, c :: cs)
  | [], acc, cnt => (acc, cnt, [])

/-- JS `parseFloat` on the coordinate texts these claims exercise: optional
leading whitespace and sign, then decimal digits with an optional fractional
part; `NaN` (`none`) if no digit is found.  (JS additionally accepts
exponent notation and `Infinity`, which none of the inputs in this file
contain.) -/
def parseFloatJs (s : String) : Option ℚ :=
  let cs := s.data.dropWhile (fun c => jsSpace c)
  let (sign, cs1) : ℚ × List Char :=
    match cs with
    | '-' :: r => (-1, r)
    | '+' :: r => (1, r)
    | _ => (1, cs)
  let (ip, icnt, cs2) := takeDigits cs1 0 0
  match cs2 with
  | '.' :: r =>
    let (fp, fcnt, _) := takeDigits r 0 0
    if icnt = 0 ∧ fcnt = 0 then none
    else some (sign * ((ip : ℚ) + (fp : ℚ) / (10 : ℚ) ^ fcnt))
  | _ => if icnt = 0 then none else some (sign * (ip : ℚ))

/-- JS `parseInt(s)` (radix 10) on attribute texts: optional leading
whitespace and sign, then the leading run of decimal digits; `NaN` (`none`)
if there is none. -/
def parseIntJs (s : String) : Option ℤ :=
  let cs := s.data.dropWhile (fun c => jsSpace c)
  let (sign, cs1) : ℤ × List Char :=
    match cs with
    | '-' :: r => (-1, r)
    | '+' :: r => (1, r)
    | _ => (1, cs)
  let (ip, icnt, _) := takeDigits cs1 0 0
  if icnt = 0 then none else some (sign * (ip : ℤ))

/-- `Math.round` (JS rounds half-up toward +∞). -/
def jsRound (q : ℚ) : ℤ := ⌊q + 1/2⌋

/-! ## Regex extraction from the SVG text

The renderer re-extracts line segments with
`/<line\s+x1="([^"]+)"\s+y1="([^"]+)"\s+x2="([^"]+)"\s+y2="([^"]+)"/g`
and the document dimensions with `/width="([^"]+)"/` and
`/height="([^"]+)"/`.  The patterns are deterministic (greedy runs with a
required terminator), so they are modelled by direct scanning: at each
position, try the literal pattern; on failure advance one character, as the
regex engine's search does. -/

/-- Match a literal character sequence, returning the rest of the input. -/
def matchLit : List Char → List Char → Option (List Char)
  | [], cs => some cs
  | _ :: _, [] => none
  | p :: ps, c :: cs => if c = p then matchLit ps cs else none

/-- Match `\s+` (at least one whitespace character, maximally). -/
def matchSpaces1 : List Char → Option (List Char)
  | [] => none
  | c :: rest => if jsSpace c then some (rest.dropWhile (fun c' => jsSpace c')) else none

/-- Match `([^"]+)"`: a nonempty run of non-quote characters followed by a
closing quote. -/
def matchCapture (cs : List Char) : Option (String × List Char) :=
  let cap := cs.takeWhile (· ≠ '"')
  if cap = [] then none
  else
    match cs.drop cap.length with
    | '"' :: rest => some (String.mk cap, rest)
    | _ => none

/-- Try the full line regex at the current position. -/
def matchLineAt (cs : List Char) : Option ((String × String × String × String) × List Char) := do
  let r1 ← matchLit "<line".data cs
  let r2 ← matchSpaces1 r1
  let r3 ← matchLit "x1=\"".data r2
  let (x1, r4) ← matchCapture r3
  let r5 ← matchSpaces1 r4
  let r6 ← matchLit "y1=\"".data r5
  let (y1, r7) ← matchCapture r6
  let r8 ← matchSpaces1 r7
  let r9 ← matchLit "x2=\"".data r8
  let (x2, r10) ← matchCapture r9
  let r11 ← matchSpaces1 r10
  let r12 ← matchLit "y2=\"".data r11
  let (y2, r13) ← matchCapture r12
  some ((x1, y1, x2, y2), r13)

/-- All matches of the line regex, in order (`lineRegex.exec` loop). -/
def scanLinesAux : ℕ → List Char → List (String × String × String × String)
  | 0, _ => []
  | _ + 1, [] => []
  | fuel + 1, c :: cs =>
    match matchLineAt (c :: cs) with
    | some (caps, rest) => caps :: scanLinesAux fuel rest
    | none => scanLinesAux fuel cs

def scanLines (s : String) : List (String × String × String × String) :=
  scanLinesAux s.data.length s.data

/-- First match of `pat + "([^"]+)""` anywhere in the input
(`svg.match(/width="([^"]+)"/)` and the `height` analogue).  Note the
pattern has no word boundary, so it also matches inside `stroke-width="..."`
— exactly as the JS regex does; the document-level attribute simply comes
first in every generated document. -/
def firstAttrValAux (pat : List Char) : ℕ → List Char → Option String
  | 0, _ => none
  | _ + 1, [] => none
  | fuel + 1, c :: cs =>
    match matchLit pat (c :: cs) with
    | some rest =>
      match matchCapture rest with
      | some (cap, _) => some cap
      | none => firstAttrValAux pat fuel cs
    | none => firstAttrValAux pat fuel cs

def firstAttrVal (pat : String) (s : String) : Option String :=
  firstAttrValAux pat.data s.data.length s.data

/-- Number of occurrences of `<line` (`svg.match(/<line/g)` count). -/
def countLineTagsAux : ℕ → List Char → ℕ
  | 0, _ => 0
  | _ + 1, [] => 0
  | fuel + 1, c :: cs =>
    match matchLit "<line".data (c :: cs) with
    | some rest => countLineTagsAux fuel rest + 1
    | none => countLineTagsAux fuel cs

def countLineTags (s : String) : ℕ :=
  countLineTagsAux s.data.length s.data

/-! ## Character grid

The JS canvas is `Array(asciiHeight).fill(0).map(() => Array(asciiWidth).fill(' '))`
— a rectangular array of single characters, mutated in place.  The glyphs in
`part_005` appear as mojibake (`Рћђ` etc.) because that copy of the file was
decoded with the wrong text encoding; the identical code in `part_004` shows
the intended box-drawing characters (`─`, `│`, ...), used here. -/

abbrev Grid := List (List Char)

def mkGrid (h w : ℕ) : Grid :=
  List.replicate h (List.replicate w ' ')

/-- Read a cell with in-range natural indices (`canvas[y][x]`; all reads in
the post-passes are guarded to be in range). -/
def getCell (g : Grid) (y x : ℕ) : Char :=
  (g.getD y []).getD x ' '

/-- Write a cell with in-range natural indices; out-of-range writes are
no-ops (`List.set` semantics) and all uses in the post-passes are in
range. -/
def setCell (g : Grid) (y x : ℕ) (c : Char) : Grid :=
  g.set y ((g.getD y []).set x c)

/-- `canvas[y][x] = c` with JS number indices, as performed by the
line-tracing code on possibly-`NaN` scaled coordinates:
* a row index that is `NaN` or out of range makes `canvas[y]` `undefined`,
  and setting a property of `undefined` throws a `TypeError`;
* a `NaN` column index sets the row's `"NaN"` property, which is invisible
  to the later `row.join('')` — a no-op on the model;
* an out-of-range integer column would sparsely extend the JS row; this is
  unreachable for clamped coordinates (claim C10) and modelled as a no-op. -/
def writeCellJs (g : Grid) (y x : Option ℤ) (c : Char) : Except String Grid :=
  match y with
  | none => .error "TypeError: Cannot set properties of undefined"
  | some yv =>
    if 0 ≤ yv ∧ yv < (g.length : ℤ) then
      match x with
      | none => .ok g
      | some xv =>
        if 0 ≤ xv ∧ xv < ((g.getD yv.toNat []).length : ℤ) then
          .ok (setCell g yv.toNat xv.toNat c)
        else .ok g
    else .error "TypeError: Cannot set properties of undefined"

/-! ## `drawLineOnCanvas` and its post-passes (`part_005` lines 128-540) -/

/-- The neighbour character classes of `improveIntersections`. -/
def northChars : List Char := ['│', '┌', '┐', '┬', '┤', '├', '┼', '/', '\\']
def southChars : List Char := ['│', '└', '┘', '┴', '┤', '├', '┼', '/', '\\']
def westChars : List Char := ['─', '┌', '└', '┬', '┴', '├', '┼', '/', '\\']
def eastChars : List Char := ['─', '┐', '┘', '┬', '┴', '┤', '┼', '/', '\\']

/-- The junction-resolution pass of `improveIntersections`: every `+` cell is
replaced by the box-drawing junction matching which of its four neighbours
hold line glyphs.  The source reads the live (partially updated) canvas, so
this is a sequential row-major fold. -/
def junctionPass (g0 : Grid) : Grid :=
  (List.range g0.length).foldl
    (fun g y =>
      (List.range ((g.getD y []).length)).foldl
        (fun g x =>
          if getCell g y x = '+' then
            let hasNorth := y > 0 ∧ (getCell g (y - 1) x) ∈ northChars
            let hasSouth := y < g.length - 1 ∧ (getCell g (y + 1) x) ∈ southChars
            let hasWest := x > 0 ∧ (getCell g y (x - 1)) ∈ westChars
            let hasEast := x < (g.getD y []).length - 1 ∧ (getCell g y (x + 1)) ∈ eastChars
            if hasNorth ∧ hasSouth ∧ hasWest ∧ hasEast then setCell g y x '┼'
            else if hasNorth ∧ hasSouth ∧ hasWest then setCell g y x '┤'
            else if hasNorth ∧ hasSouth ∧ hasEast then setCell g y x '├'
            else if hasNorth ∧ hasWest ∧ hasEast then setCell g y x '┴'
            else if hasSouth ∧ hasWest ∧ hasEast then setCell g y x '┬'
            else if hasNorth ∧ hasSouth then setCell g y x '│'
            else if hasWest ∧ hasEast then setCell g y x '─'
            else if hasNorth ∧ hasEast then setCell g y x '└'
            else if hasNorth ∧ hasWest then setCell g y x '┘'
            else if hasSouth ∧ hasEast then setCell g y x '┌'
            else if hasSouth ∧ hasWest then setCell g y x '┐'
            else g
          else g)
        g)
    g0

/-- The adjacent-application-row shifting at the end of `fillSmallGaps`:
`applicationRows` is computed from the snapshot, then for every adjacent
pair the rows below are shifted down cell by cell on the live canvas and the
remaining recorded row indices are incremented. -/
def shiftRowsDown (g0 : Grid) (rows0 : List ℕ) (h w : ℕ) : Grid :=
  (List.range (rows0.length - 1)).foldl
    (fun (st : Grid × List ℕ) i =>
      let (g, rows) := st
      if rows.getD (i + 1) 0 - rows.getD i 0 = 1 then
        let startY := rows.getD (i + 1) 0 + 1
        let g' :=
          (List.range (h - startY)).foldl
            (fun g dy =>
              let y := startY + dy
              (List.range w).foldl
                (fun g x =>
                  if y < h - 1 then
                    let c := getCell g y x
                    setCell (setCell g (y + 1) x c) y x ' '
                  else g)
                g)
            g
        (g', rows.mapIdx (fun j r => if i + 1 ≤ j then r + 1 else r))
      else st)
    (g0, rows0)
  |>.1

/-- `fillSmallGaps`: four gap-filling passes whose conditions read the
snapshot taken at function entry and whose writes accumulate on the canvas,
followed by the application-row shifting.  The JS loop bound `y < height/3`
iterates `⌈height/3⌉` times. -/
def fillSmallGaps (g0 : Grid) : Grid :=
  let height := g0.length
  if height = 0 then g0
  else
    let width := (g0.headD []).length
    let o := g0
    -- horizontal gaps, top third only; rows y < 8 are skipped entirely
    let g1 :=
      (List.range ((height + 2) / 3)).foldl
        (fun g y =>
          (List.range (width - 2)).foldl
            (fun g x =>
              if y < 8 then g
              else if getCell o y x = '─' ∧ getCell o y (x + 1) = ' ' ∧
                  getCell o y (x + 2) = '─' then
                setCell g y (x + 1) '─'
              else g)
            g)
        g0
    -- vertical gaps
    let g2 :=
      (List.range (height - 2)).foldl
        (fun g y =>
          (List.range width).foldl
            (fun g x =>
              if getCell o y x = '│' ∧ getCell o (y + 1) x = ' ' ∧
                  getCell o (y + 2) x = '│' then
                setCell g (y + 1) x '│'
              else g)
            g)
        g1
    -- diagonal gaps, normal direction
    let g3 :=
      (List.range (height - 2)).foldl
        (fun g y =>
          (List.range (width - 2)).foldl
            (fun g x =>
              if (getCell o y x = '/' ∧ getCell o (y + 2) (x + 2) = '/') ∨
                  (getCell o y x = '\\' ∧ getCell o (y + 2) (x + 2) = '\\') then
                setCell g (y + 1) (x + 1) (getCell o y x)
              else g)
            g)
        g2
    -- diagonal gaps, reverse direction
    let g4 :=
      (List.range (height - 2)).foldl
        (fun g y =>
          (List.range (width - 2)).foldl
            (fun g dx =>
              let x := dx + 2
              if (getCell o y x = '/' ∧ getCell o (y + 2) (x - 2) = '/') ∨
                  (getCell o y x = '\\' ∧ getCell o (y + 2) (x - 2) = '\\') then
                setCell g (y + 1) (x - 1) (getCell o y x)
              else g)
            g)
        g3
    -- application rows: rows in the bottom third of the snapshot holding any '─'
    let applicationRows :=
      ((List.range (height - 2 * height / 3)).map (· + 2 * height / 3)).filter
        (fun y => (List.range width).any (fun x => getCell o y x = '─'))
    shiftRowsDown g4 applicationRows height width

/-- `improveIntersections`: fill small gaps, then resolve `+` junctions. -/
def improveIntersections (g : Grid) : Grid :=
  junctionPass (fillSmallGaps g)

/-- The Bresenham loop of `drawLineOnCanvas` on JS numbers.  `dx`, `dy`,
`x2`, `y2` and the glyph chosen for the whole segment are loop invariants;
`sx`/`sy` are the plain numbers `±1`.  The `e2` conditions both test the
value of `err` from the top of the iteration.  The JS loop is unbounded;
fuel exhaustion models non-termination (which integer inputs never reach —
see the bresenham lemmas) as an error distinct from the `TypeError`. -/
def bresLoopJs (dx dy x2 y2 : Option ℤ) (sx sy : ℤ) (char : Char) :
    ℕ → Grid → Option ℤ → Option ℤ → Option ℤ → Except String Grid
  | 0, _, _, _, _ => .error "loop did not terminate"
  | fuel + 1, g, x, y, err => do
    let g' ← writeCellJs g y x char
    if jsEqI x x2 ∧ jsEqI y y2 then .ok g'
    else
      -- `e2 = 2 * err` is computed once in the source and tested by both
      -- guards; it is duplicated textually here
      bresLoopJs dx dy x2 y2 sx sy char fuel g'
        (if jsGtI (jsMulI (some 2) err) (jsNegI dy) then jsAddI x (some sx) else x)
        (if jsLtI (jsMulI (some 2) err) dx then jsAddI y (some sy) else y)
        (if jsLtI (jsMulI (some 2) err) dx then
          jsAddI (if jsGtI (jsMulI (some 2) err) (jsNegI dy) then jsSubI err dy else err) dx
         else (if jsGtI (jsMulI (some 2) err) (jsNegI dy) then jsSubI err dy else err))

/-- The horizontal branch of `drawLineOnCanvas`: fill `─` from the smaller
to the larger x at row `y`.  A `NaN` bound makes the `for` loop iterate zero
times. -/
def drawHoriz (g : Grid) (x1 x2 yOpt : Option ℤ) : Except String Grid :=
  match x1, x2, yOpt with
  | some a, some b, some yv =>
    (List.range ((max a b - min a b).toNat + 1)).foldlM
      (fun g (i : ℕ) => writeCellJs g (some yv) (some (min a b + (i : ℤ))) '─') g
  | _, _, _ => .ok g

/-- The vertical branch of `drawLineOnCanvas`. -/
def drawVert (g : Grid) (y1 y2 xOpt : Option ℤ) : Except String Grid :=
  match y1, y2, xOpt with
  | some a, some b, some xv =>
    (List.range ((max a b - min a b).toNat + 1)).foldlM
      (fun g (i : ℕ) => writeCellJs g (some (min a b + (i : ℤ))) (some xv) '│') g
  | _, _, _ => .ok g

/-- The glyph choice of the Bresenham branch.  The source evaluates this
expression inside every loop iteration, but it only mentions the loop
invariants `dx`, `dy`, `sx`, `sy`, so it is one fixed character per
segment. -/
def diagChar (x1 y1 x2 y2 : Option ℤ) : Char :=
  let dx := jsAbsI (jsSubI x2 x1)
  let dy := jsAbsI (jsSubI y2 y1)
  let sx : ℤ := if jsLtI x1 x2 then 1 else -1
  let sy : ℤ := if jsLtI y1 y2 then 1 else -1
  if jsLeI dx (some 1) ∧ jsGtI dy (some 1) then '│'
  else if jsLeI dy (some 1) ∧ jsGtI dx (some 1) then '─'
  else if jsGtI dx dy then (if sx * sy > 0 then '\\' else '/')
  else (if sx * sy > 0 then '/' else '\\')

/-- The diagonal branch of `drawLineOnCanvas`: the Bresenham loop followed
by `improveIntersections` (the horizontal/vertical branches `return` before
reaching it). -/
def drawDiag (g : Grid) (x1 y1 x2 y2 : Option ℤ) : Except String Grid :=
  let dx := jsAbsI (jsSubI x2 x1)
  let dy := jsAbsI (jsSubI y2 y1)
  let sx : ℤ := if jsLtI x1 x2 then 1 else -1
  let sy : ℤ := if jsLtI y1 y2 then 1 else -1
  let err := jsSubI dx dy
  do
    let g' ← bresLoopJs dx dy x2 y2 sx sy (diagChar x1 y1 x2 y2)
      (g.length + (g.headD []).length + 2) g x1 y1 err
    .ok (improveIntersections g')

/-- `drawLineOnCanvas`: dispatch on `y1 === y2` / `x1 === x2`. -/
def drawLineOnCanvas (g : Grid) (x1 y1 x2 y2 : Option ℤ) : Except String Grid :=
  if jsEqI y1 y2 then drawHoriz g x1 x2 y1
  else if jsEqI x1 x2 then drawVert g y1 y2 x1
  else drawDiag g x1 y1 x2 y2

/-- The grid is an `h × w` rectangle. -/
def GridDims (g : Grid) (h w : ℕ) : Prop :=
  g.length = h ∧ ∀ row ∈ g, row.length = w

/-- The sequence of `(row, column)` cells the Bresenham loop of
`drawLineOnCanvas` writes, mirroring `bresLoopJs` on plain integers (the
clamped-coordinate case): the visited cell, then — unless the endpoint is
reached — the stepped state. -/
def bresPoints (dx dy x2 y2 sx sy : ℤ) : ℕ → ℤ → ℤ → ℤ → List (ℤ × ℤ)
  | 0, _, _, _ => []
  | fuel + 1, x, y, err =>
    (y, x) ::
      (if x = x2 ∧ y = y2 then []
       else
         bresPoints dx dy x2 y2 sx sy fuel
           (if 2 * err > -dy then x + sx else x)
           (if 2 * err < dx then y + sy else y)
           (if 2 * err < dx then (if 2 * err > -dy then err - dy else err) + dx
            else (if 2 * err > -dy then err - dy else err)))

/-- `distinguishApplicationLines`: rows in the bottom third of the snapshot
with more than three `─` cells get a `┬` marker at the midpoint of each
sufficiently long segment. -/
def distinguishApplicationLines (g0 : Grid) : Grid :=
  let height := g0.length
  if height = 0 then g0
  else
    let width := (g0.headD []).length
    let o := g0
    let applicationRows :=
      ((List.range (height - 2 * height / 3)).map (· + 2 * height / 3)).filter
        (fun y => ((List.range width).countP (fun x => getCell o y x = '─')) > 3)
    applicationRows.foldl
      (fun g y =>
        -- scan the snapshot row for maximal '─' segments
        let scanned :=
          (List.range width).foldl
            (fun (st : List (ℕ × ℕ) × Option ℕ) x =>
              match st.2 with
              | none => if getCell o y x = '─' then (st.1, some x) else st
              | some s =>
                if getCell o y x = '─' then st else (st.1 ++ [(s, x - 1)], none))
            ([], none)
        let segments :=
          match scanned.2 with
          | some s => scanned.1 ++ [(s, width - 1)]
          | none => scanned.1
        segments.foldl
          (fun g seg =>
            if seg.2 - seg.1 ≥ 5 then
              let midpoint := (seg.1 + seg.2) / 2
              if midpoint > seg.1 + 1 ∧ midpoint + 1 < seg.2 then
                setCell g y midpoint '┬'
              else g
            else g)
          g)
      g0

/-- `fillGapsForLargeDiagrams`: length-two gap filling, same snapshot
discipline as `fillSmallGaps`, only when `isLargeDiagram`. -/
def fillGapsForLargeDiagrams (g0 : Grid) (isLargeDiagram : Bool) : Grid :=
  if ¬ isLargeDiagram then g0
  else
    let height := g0.length
    if height = 0 then g0
    else
      let width := (g0.headD []).length
      let o := g0
      let g1 :=
        (List.range ((height + 2) / 3)).foldl
          (fun g y =>
            (List.range (width - 3)).foldl
              (fun g x =>
                if y < 8 then g
                else if getCell o y x = '─' ∧ getCell o y (x + 1) = ' ' ∧
                    getCell o y (x + 2) = ' ' ∧ getCell o y (x + 3) = '─' then
                  setCell (setCell g y (x + 1) '─') y (x + 2) '─'
                else g)
              g)
          g0
      let g2 :=
        (List.range (height - 3)).foldl
          (fun g y =>
            (List.range width).foldl
              (fun g x =>
                if getCell o y x = '│' ∧ getCell o (y + 1) x = ' ' ∧
                    getCell o (y + 2) x = ' ' ∧ getCell o (y + 3) x = '│' then
                  setCell (setCell g (y + 1) x '│') (y + 2) x '│'
                else g)
              g)
          g1
      let g3 :=
        (List.range (height - 3)).foldl
          (fun g y =>
            (List.range (width - 3)).foldl
              (fun g x =>
                if (getCell o y x = '/' ∧ getCell o (y + 3) (x + 3) = '/') ∨
                    (getCell o y x = '\\' ∧ getCell o (y + 3) (x + 3) = '\\') then
                  setCell (setCell g (y + 1) (x + 1) (getCell o y x)) (y + 2) (x + 2)
                    (getCell o y x)
                else g)
              g)
          g2
      (List.range (height - 3)).foldl
        (fun g y =>
          (List.range (width - 3)).foldl
            (fun g dx =>
              let x := dx + 3
              if (getCell o y x = '/' ∧ getCell o (y + 3) (x - 3) = '/') ∨
                  (getCell o y x = '\\' ∧ getCell o (y + 3) (x - 3) = '\\') then
                setCell (setCell g (y + 1) (x - 1) (getCell o y x)) (y + 2) (x - 2)
                  (getCell o y x)
              else g)
            g)
        g3

/-- `trimWhitespace`: crop to the bounding box of non-blank cells plus a
fixed margin (1 column of padding for wide canvases, else 2). -/
def trimWhitespace (g : Grid) : Grid :=
  let h := g.length
  let w := (g.headD []).length
  let occupied :=
    (List.range h).flatMap (fun y =>
      (List.range w).filterMap (fun x =>
        if getCell g y x ≠ ' ' then some (y, x) else none))
  match occupied with
  | [] => g
  | _ =>
    let minX := (occupied.map Prod.snd).foldl min w
    let maxX := (occupied.map Prod.snd).foldl max 0
    let minY := (occupied.map Prod.fst).foldl min h
    let maxY := (occupied.map Prod.fst).foldl max 0
    let padding := if w > 50 then 1 else 2
    let minX' := minX - padding
    let minY' := minY - 1
    let maxX' := min (w - 1) (maxX + padding)
    let maxY' := min (h - 1) (maxY + 1)
    ((List.range (maxY' + 1 - minY')).map (· + minY')).map
      (fun y => ((g.getD y []).drop minX').take (maxX' + 1 - minX'))

/-- Compare the ratio `w / h` of two parsed attribute values against a
constant, with the JS semantics at the edges: `NaN` anywhere is false;
`w / 0` is `±Infinity` for nonzero `w` (comparing as its sign dictates) and
`NaN` for `w = 0`. -/
def jsRatioGt (w h : Option ℤ) (c : ℚ) : Bool :=
  match w, h with
  | some a, some b =>
    if b = 0 then (if a = 0 then false else a > 0)
    else ((a : ℚ) / (b : ℚ)) > c
  | _, _ => false

def jsRatioLt (w h : Option ℤ) (c : ℚ) : Bool :=
  match w, h with
  | some a, some b =>
    if b = 0 then (if a = 0 then false else a < 0)
    else ((a : ℚ) / (b : ℚ)) < c
  | _, _ => false

/-- The scale-factor selection of `renderSVGAsASCII` (`part_005` lines
48-74): the base pair chosen by complexity, then the `preserveSpacing`
bump of the vertical factor by 1.2. -/
def asciiScaleFactors (lineCount : ℕ) (isComplexWideDiagram preserveSpacing : Bool) :
    ℚ × ℚ :=
  let base : ℚ × ℚ :=
    if isComplexWideDiagram then (1/10, 1/10)
    else if lineCount > 100 then (3/20, 1/5)
    else if lineCount > 50 then (1/5, 3/10)
    else (3/10, 1/5)
  if preserveSpacing then (base.1, base.2 * (6/5)) else base

/-- One scaled, clamped coordinate:
`Math.min(size-1, Math.max(0, Math.round(parseFloat(str) * size * scale / dim)))`.
`NaN` anywhere survives both `Math.min` and `Math.max` as `NaN`; a zero
document dimension puts `±Infinity` through the clamp (collapsing to the
respective bound) or `NaN` for a zero numerator. -/
def scaledCoord (coordStr : String) (gridSize : ℕ) (scale : ℚ) (docDim : Option ℤ) :
    Option ℤ :=
  match parseFloatJs coordStr, docDim with
  | some q, some d =>
    if d = 0 then
      let num := q * (gridSize : ℚ) * scale
      if num = 0 then none
      else some (if num > 0 then (gridSize : ℤ) - 1 else 0)
    else some (min ((gridSize : ℤ) - 1) (max 0 (jsRound (q * (gridSize : ℚ) * scale / (d : ℚ)))))
  | _, _ => none

/-- `renderSVGAsASCII` (`part_005`).  The terminal size
(`process.stdout.columns`/`rows`) is fixed at the source's non-TTY defaults
100 × 40.  Console output is ignored.  A thrown `TypeError` (from a canvas
write at a `NaN` row index) propagates as `.error`. -/
def renderSVGAsASCII (svg : String) (preserveSpacing : Bool := true) :
    Except String String :=
  let width : Option ℤ :=
    match firstAttrVal "width=\"" svg with
    | some s => parseIntJs s
    | none => some 1200
  let height : Option ℤ :=
    match firstAttrVal "height=\"" svg with
    | some s => parseIntJs s
    | none => some 800
  let lineCount := countLineTags svg
  let terminalWidth : ℤ := 100
  let terminalHeight : ℤ := 40
  let isComplexWideDiagram := lineCount > 200 ∨ jsGtI width (some 1000)
  let asciiWidth0 : ℤ := min (terminalWidth - 4) (if isComplexWideDiagram then 100 else 60)
  let asciiHeight0 : ℤ := min (terminalHeight - 6) (if isComplexWideDiagram then 22 else 30)
  let (asciiWidth1, asciiHeight1) : ℤ × ℤ :=
    if jsRatioGt width height (5/2) then (min (terminalWidth - 2) 120, 30)
    else if jsRatioLt width height (7/10) then
      (⌊(asciiWidth0 : ℚ) * (7/10)⌋, min (asciiHeight0 + 5) 35)
    else (asciiWidth0, asciiHeight0)
  let sf := asciiScaleFactors lineCount isComplexWideDiagram preserveSpacing
  let asciiHeight : ℤ := if preserveSpacing then min (asciiHeight1 + 5) 40 else asciiHeight1
  let canvas := mkGrid asciiHeight.toNat asciiWidth1.toNat
  do
    let canvas ← (scanLines svg).foldlM
      (fun g (caps : String × String × String × String) =>
        let x1 := scaledCoord caps.1 asciiWidth1.toNat sf.1 width
        let y1 := scaledCoord caps.2.1 asciiHeight.toNat sf.2 height
        let x2 := scaledCoord caps.2.2.1 asciiWidth1.toNat sf.1 width
        let y2 := scaledCoord caps.2.2.2 asciiHeight.toNat sf.2 height
        drawLineOnCanvas g x1 y1 x2 y2)
      canvas
    let canvas := distinguishApplicationLines canvas
    let canvas := fillGapsForLargeDiagrams canvas (lineCount > 50)
    let trimmed := trimWhitespace canvas
    .ok (String.intercalate "\n" (trimmed.map (fun row => String.mk row)))

/-! ### Concrete vector documents used by the renderer claims -/

/-- A document whose single line primitive has all four coordinate
attributes present but non-numeric. -/
def fail5doc : String :=
  "<svg width=\"600\" height=\"600\"><line x1=\"zzz\" y1=\"zzz\" x2=\"zzz\" y2=\"zzz\" /></svg>"

/-- A document whose single line primitive has no coordinate attributes at
all (the extraction pattern does not match, so the primitive is skipped). -/
def skipDoc : String :=
  "<svg width=\"600\" height=\"600\"><line /></svg>"

/-- A simple document (one line primitive, ordinary dimensions). -/
def c8doc : String :=
  "<svg width=\"600\" height=\"600\"><line x1=\"100\" y1=\"100\" x2=\"400\" y2=\"100\" /></svg>"

/-- A document whose line coordinates all parse as finite numbers but whose
declared height attribute is non-numeric. -/
def c10doc : String :=
  "<svg width=\"600\" height=\"abc\"><line x1=\"0\" y1=\"0\" x2=\"100\" y2=\"50\" /></svg>"

/-! ## `TrompDiagramGenerator` (`tromp-diagram.ts` lines 262-1118)

The generator is a class whose fields are the resolved options and four
pieces of per-call bookkeeping (`labelPositions`, `seenOperations`,
`componentColors`, `colorIndex`).  `getComponentColor` builds ids from
`Date.now()` and `Math.random()`; those two calls are collapsed into one
draw from an oracle stream `ℕ → String` indexed by a counter in the render
state.  SVG output is modelled structurally as a list of primitives; the
string serialisation applies a fixed formatting to each primitive, so
structural equality of two runs gives character-for-character equality of
the serialised documents.  `_translateSVG` translates coordinates through
the regexes `(x1|x2|cx)="..."` and `(y1|y2|cy)="..."`, which touch line
endpoints but not the `x=`/`y=` attributes of `<text>` labels — the
structural `translateSVG` reproduces exactly that. -/

structure Options where
  unitSize : ℚ
  lineWidth : ℚ
  padding : ℚ
  backgroundColor : String
  colors : List String
  textColor : String
  operatorColor : String
  churchNumeralColor : String
  labelPadding : ℚ
  labelOffset : ℚ
  labelCollisionOffset : ℚ
  width : ℚ
  height : ℚ
  showLabels : Bool
  hideApplicationSymbols : Bool
  preserveAspectRatio : Bool
deriving DecidableEq, Repr

structure BBox where
  x1 : ℚ
  y1 : ℚ
  x2 : ℚ
  y2 : ℚ
deriving DecidableEq, Repr

/-- One SVG primitive emitted by `drawTermExact`: a `<line>` (with stroke
colour, stroke width and an optional `stroke-linecap="round"`), or a
`<text>` label (monospace bold; font size and fill colour). -/
inductive Prim where
  | line (x1 y1 x2 y2 : ℚ) (stroke : String) (strokeWidth : ℚ) (roundCap : Bool)
  | text (x y : ℚ) (fontSize : ℚ) (fill : String) (content : String)
deriving DecidableEq, Repr

/-- Per-call mutable bookkeeping of the generator, plus the oracle cursor. -/
structure RenderState where
  labelPositions : List BBox
  componentColors : List (String × String)
  colorIndex : ℕ
  oracleAt : ℕ
deriving Repr

/-- `this.options.colors[i % this.options.colors.length]`.  With an empty
palette the JS index is `NaN` and the lookup yields `undefined`; the model
returns the default in that case, which is likewise independent of the
render state. -/
def palette (opts : Options) (i : ℕ) : String :=
  opts.colors.getD (i % opts.colors.length) "undefined"

/-- `Map.get` on `componentColors`: entries are consed at the front, so the
first hit is the latest `set`. -/
def lookupColor (σ : RenderState) (id : String) : Option String :=
  (σ.componentColors.find? (fun p => p.1 = id)).map (·.2)

/-- `_findNonCollidingPosition`: despite its name it performs no collision
avoidance — it skips empty and `"f"` labels, records the label's bounding
box, and returns the requested position unchanged.  Result: `(x, y, skip)`
plus the updated state. -/
def findNonCollidingPosition (opts : Options) (σ : RenderState) (x y : ℚ)
    (text : String) (fontSize : ℚ) : (ℚ × ℚ × Bool) × RenderState :=
  if text = "" ∨ text = "f" then ((x, y, true), σ)
  else
    let labelWidth := (text.length : ℚ) * (fontSize * (3/5))
    let labelHeight := fontSize * (6/5)
    ((x, y, false),
     { σ with labelPositions := σ.labelPositions ++
        [⟨x - opts.labelPadding, y - labelHeight,
          x + labelWidth + opts.labelPadding, y + opts.labelPadding⟩] })

/-- `_translateSVG` on structural primitives: the regex replaces the values
of `x1`/`x2`/`cx` and `y1`/`y2`/`cy` attributes, so line endpoints are
translated while `<text>` `x=`/`y=` attributes are left untouched. -/
def translateSVG (prims : List Prim) (dx dy : ℚ) : List Prim :=
  prims.map fun p =>
    match p with
    | .line x1 y1 x2 y2 s w c => .line (x1 + dx) (y1 + dy) (x2 + dx) (y2 + dy) s w c
    | .text .. => p

/-- The label block of the lambda case of `drawTermExact` (lines 677-714):
Church numerals at the root show their value, the canonical selector shapes
show `true`/`false`, other binders except `f` show `λ` plus the name; the
label is placed at the left end of the binder bar via
`_findNonCollidingPosition`. -/
def lamLabel (opts : Options) (σ : RenderState) (v : String) (body : Term)
    (cn : Option ℤ) (isRoot : Bool) (lambdaColor : String) (binderX binderY : ℚ) :
    List Prim × RenderState :=
  if opts.showLabels then
    let labelText :=
      match cn, isRoot with
      | some nv, true => toString nv
      | _, _ =>
        match body with
        | .lam bv inner _ =>
          if v = "x" ∧ (bv = "y" ∨ bv = "z") then
            (match inner with
             | .var _ i => if i = 1 then "true" else "false"
             | _ => "false")
          else if v ≠ "f" then "λ" ++ v else ""
        | _ => if v ≠ "f" then "λ" ++ v else ""
    if labelText ≠ "" then
      let fp := findNonCollidingPosition opts σ binderX (binderY - 5) labelText 14
      if fp.1.2.2 then ([], fp.2)
      else ([Prim.text fp.1.1 fp.1.2.1 14 lambdaColor labelText], fp.2)
    else ([], σ)
  else ([], σ)

/-- The label block of the variable case of `drawTermExact` (lines 771-805):
`f` and Church-numeral `x` occurrences are unlabelled; otherwise the name,
or the De Bruijn index for unnamed variables outside Church numerals. -/
def varLabel (opts : Options) (σ : RenderState) (name : String) (idx : ℤ)
    (inChurch : Bool) (varColor : String) (varX varY : ℚ) :
    List Prim × RenderState :=
  if opts.showLabels then
    if name = "f" ∨ (name = "x" ∧ inChurch) then ([], σ)
    else
      let labelText :=
        if name ≠ "" ∧ name ≠ "f" then name
        else if ¬ inChurch then toString idx
        else ""
      if labelText ≠ "" then
        let fp := findNonCollidingPosition opts σ (varX + 3) varY labelText 12
        if fp.1.2.2 then ([], fp.2)
        else ([Prim.text fp.1.1 fp.1.2.1 12 varColor labelText], fp.2)
      else ([], σ)
  else ([], σ)

/-- The label block of the application case of `drawTermExact` (lines
929-954): only the arithmetic operator names `+ - * /` applied as the
function are labelled, below the left edge of the application bar. -/
def appLabel (opts : Options) (σ : RenderState) (f : Term) (barX barY : ℚ) :
    List Prim × RenderState :=
  if opts.showLabels then
    match f with
    | .var nm _ =>
      if nm = "+" ∨ nm = "-" ∨ nm = "*" ∨ nm = "/" then
        let fp := findNonCollidingPosition opts σ barX (barY + 12) nm 16
        if fp.1.2.2 then ([], fp.2)
        else ([Prim.text fp.1.1 fp.1.2.1 12 opts.operatorColor nm], fp.2)
      else ([], σ)
    | _ => ([], σ)
  else ([], σ)

/-- `drawTermExact`.  Arguments beyond the term:
* `ancIds` — for each enclosing lambda (innermost first) the value of its
  `binderId` field at this moment.  A lambda's id is generated only *after*
  its body has been drawn (the body recursion on line 649 precedes the
  `getComponentColor('lambda', term)` call on line 658), so every entry a
  lambda passes for itself is `none`; `_findBindingLambda`'s parent walk is
  exactly a lookup in this list at the variable's De Bruijn index.
* `inChurch` — whether some enclosing-or-self term carries the
  `isChurchNumeral` flag (`_isPartOfChurchNumeral`'s parent walk).
* `isRoot` — whether the node has no parent (`!term.parent`).
Returns the `DiagramResult` (svg, height, width), the `binderId` assigned to
the root node of this subtree (`some` only for lambdas), and the state.
The source also computes `leftTermColor`/`rightTermColor` in the
application case (lines 879-893) but never uses them; they have no
counterpart here. -/
def drawTermExact (opts : Options) (oracle : ℕ → String) :
    Term → List (Option String) → Bool → Bool → RenderState →
    (List Prim × ℚ × ℚ) × Option String × RenderState
  | .lam v body cn, ancIds, inChurch, isRoot, σ =>
    let bodyR := drawTermExact opts oracle body (none :: ancIds)
      (inChurch || cn.isSome) false σ
    let bodyRes := bodyR.1
    let σ1 := bodyR.2.2
    let h := bodyRes.2.2 + 1
    let w := bodyRes.2.1
    let unitSize := opts.unitSize
    -- getComponentColor('lambda', term): fresh id, next palette colour,
    -- recorded in componentColors and on the term as binderId
    let lambdaId := "lambda-" ++ v ++ "-" ++ oracle σ1.oracleAt
    let lambdaColor := palette opts σ1.colorIndex
    let σ2 : RenderState :=
      { σ1 with colorIndex := σ1.colorIndex + 1,
                componentColors := (lambdaId, lambdaColor) :: σ1.componentColors,
                oracleAt := σ1.oracleAt + 1 }
    let binderWidth := w * unitSize * 2 * (85/100)
    let horizontalGap := unitSize * (12/10)
    let binderX := opts.padding + horizontalGap
    let binderY := opts.padding
    let binderLine := Prim.line binderX binderY (binderX + binderWidth) binderY
      lambdaColor (opts.lineWidth * (12/10)) true
    let labelled := lamLabel opts σ2 v body cn isRoot lambdaColor binderX binderY
    ((binderLine :: labelled.1 ++ translateSVG bodyRes.1 0 unitSize, w, h),
     some lambdaId, labelled.2)
  | .var name idx, ancIds, inChurch, _, σ =>
    let h : ℚ := 0
    let w : ℚ := 1
    let unitSize := opts.unitSize
    let horizontalGap := unitSize * (12/10)
    let varX := opts.padding + horizontalGap
    let varY := opts.padding
    -- _findBindingLambda: the enclosing lambda `index` binders up, if any
    let bindingId : Option (Option String) :=
      if idx < 0 then none else ancIds.get? idx.toNat
    let coloured : String × RenderState :=
      match bindingId with
      | some (some id) =>
        if id ≠ "" then
          -- getComponentColor('variable', null, id): the stored colour if
          -- the map has the id, else the fallback palette draw
          match lookupColor σ id with
          | some c => (c, σ)
          | none => (palette opts σ.colorIndex, { σ with colorIndex := σ.colorIndex + 1 })
        else (opts.colors.getD 0 "undefined", σ)
      | _ => (opts.colors.getD 0 "undefined", σ)
    let varColor := coloured.1
    let σ1 := coloured.2
    let indexDistance := idx + 1
    let varHeight := (indexDistance : ℚ) * unitSize
    let varLine := Prim.line varX varY varX (varY - varHeight) varColor opts.lineWidth false
    let labelled := varLabel opts σ1 name idx inChurch varColor varX varY
    ((varLine :: labelled.1, w, h), none, labelled.2)
  | .app f a, ancIds, inChurch, _, σ =>
    let funcR := drawTermExact opts oracle f ancIds inChurch false σ
    let funcRes := funcR.1
    let σ1 := funcR.2.2
    let argR := drawTermExact opts oracle a ancIds inChurch false σ1
    let argRes := argR.1
    let argBid := argR.2.1
    let σ2 := argR.2.2
    let h1 := funcRes.2.2
    let w1 := funcRes.2.1
    let h2 := argRes.2.2
    let h := max h1 h2 + 1
    let w := w1 + argRes.2.1
    let unitSize := opts.unitSize
    -- getComponentColor('application', term), CASE 3: a VAR argument with a
    -- truthy binderId present in the map lends its colour, else the next
    -- palette colour; either way a fresh app id records the colour
    let viaArg : Option String :=
      match a, argBid with
      | .var _ _, some id =>
        if id ≠ "" then lookupColor σ2 id else none
      | _, _ => none
    let appPick : String × RenderState :=
      match viaArg with
      | some c =>
        (c, { σ2 with componentColors := ("app-" ++ oracle σ2.oracleAt, c) :: σ2.componentColors,
                      oracleAt := σ2.oracleAt + 1 })
      | none =>
        let c := palette opts σ2.colorIndex
        (c, { σ2 with colorIndex := σ2.colorIndex + 1,
                      componentColors := ("app-" ++ oracle σ2.oracleAt, c) :: σ2.componentColors,
                      oracleAt := σ2.oracleAt + 1 })
    let appColor := appPick.1
    let σ3 := appPick.2
    let funcBottom := opts.padding + h1 * unitSize
    let argBottom := opts.padding + h2 * unitSize
    let barY := max funcBottom argBottom
    let horizontalGap := unitSize * (12/10)
    let fillerF : List Prim :=
      if funcBottom < barY then
        [.line (opts.padding + horizontalGap) funcBottom (opts.padding + horizontalGap)
          (funcBottom + (barY - funcBottom)) appColor opts.lineWidth false]
      else []
    let fillerA : List Prim :=
      if argBottom < barY then
        [.line (opts.padding + horizontalGap + 2 * w1 * unitSize) argBottom
          (opts.padding + horizontalGap + 2 * w1 * unitSize)
          (argBottom + (barY - argBottom)) appColor opts.lineWidth false]
      else []
    let barX := opts.padding + horizontalGap
    let barWidth := 2 * w1 * unitSize
    let bar := Prim.line barX barY (barX + barWidth) barY appColor opts.lineWidth false
    let conn1 := Prim.line barX barY barX (max 0 (funcBottom - unitSize))
      appColor opts.lineWidth false
    let conn2 := Prim.line (barX + barWidth) barY (barX + barWidth)
      (max 0 (argBottom - unitSize)) appColor opts.lineWidth false
    let labelled := appLabel opts σ3 f barX barY
    ((fillerF ++ fillerA ++ [bar, conn1, conn2] ++ funcRes.1 ++
        translateSVG argRes.1 (w1 * 2 * unitSize) 0 ++ labelled.1, w, h),
     none, labelled.2)

/-- The variable branch of `drawTermExact`, with the branch-local inputs
abstracted (used to reason about the recursion case by case). -/
def drawVarCase (opts : Options) (name : String) (idx : ℤ)
    (ancIds : List (Option String)) (inChurch : Bool) (σ : RenderState) :
    (List Prim × ℚ × ℚ) × Option String × RenderState :=
  let h : ℚ := 0
  let w : ℚ := 1
  let unitSize := opts.unitSize
  let horizontalGap := unitSize * (12/10)
  let varX := opts.padding + horizontalGap
  let varY := opts.padding
  let bindingId : Option (Option String) :=
    if idx < 0 then none else ancIds.get? idx.toNat
  let coloured : String × RenderState :=
    match bindingId with
    | some (some id) =>
      if id ≠ "" then
        match lookupColor σ id with
        | some c => (c, σ)
        | none => (palette opts σ.colorIndex, { σ with colorIndex := σ.colorIndex + 1 })
      else (opts.colors.getD 0 "undefined", σ)
    | _ => (opts.colors.getD 0 "undefined", σ)
  let varColor := coloured.1
  let σ1 := coloured.2
  let indexDistance := idx + 1
  let varHeight := (indexDistance : ℚ) * unitSize
  let varLine := Prim.line varX varY varX (varY - varHeight) varColor opts.lineWidth false
  let labelled := varLabel opts σ1 name idx inChurch varColor varX varY
  ((varLine :: labelled.1, w, h), none, labelled.2)

/-- The lambda branch of `drawTermExact`, abstracted over the body's
already-computed result `bodyR`. -/
def drawLamCase (opts : Options) (oracle : ℕ → String) (v : String) (body : Term)
    (cn : Option ℤ) (isRoot : Bool)
    (bodyR : (List Prim × ℚ × ℚ) × Option String × RenderState) :
    (List Prim × ℚ × ℚ) × Option String × RenderState :=
  let bodyRes := bodyR.1
  let σ1 := bodyR.2.2
  let h := bodyRes.2.2 + 1
  let w := bodyRes.2.1
  let unitSize := opts.unitSize
  let lambdaId := "lambda-" ++ v ++ "-" ++ oracle σ1.oracleAt
  let lambdaColor := palette opts σ1.colorIndex
  let σ2 : RenderState :=
    { σ1 with colorIndex := σ1.colorIndex + 1,
              componentColors := (lambdaId, lambdaColor) :: σ1.componentColors,
              oracleAt := σ1.oracleAt + 1 }
  let binderWidth := w * unitSize * 2 * (85/100)
  let horizontalGap := unitSize * (12/10)
  let binderX := opts.padding + horizontalGap
  let binderY := opts.padding
  let binderLine := Prim.line binderX binderY (binderX + binderWidth) binderY
    lambdaColor (opts.lineWidth * (12/10)) true
  let labelled := lamLabel opts σ2 v body cn isRoot lambdaColor binderX binderY
  ((binderLine :: labelled.1 ++ translateSVG bodyRes.1 0 unitSize, w, h),
   some lambdaId, labelled.2)

/-- Case 3 of `getComponentColor` as used by the application branch: a
variable argument with a truthy `binderId` found in the map lends its
colour; anything else yields nothing. -/
def viaArgColor (σ : RenderState) (a : Term) (argBid : Option String) : Option String :=
  match a, argBid with
  | .var _ _, some id => if id ≠ "" then lookupColor σ id else none
  | _, _ => none

/-- The application branch of `drawTermExact`, abstracted over the two
already-computed child results `funcR` and `argR`. -/
def drawAppCase (opts : Options) (oracle : ℕ → String) (f a : Term)
    (funcR argR : (List Prim × ℚ × ℚ) × Option String × RenderState) :
    (List Prim × ℚ × ℚ) × Option String × RenderState :=
  let funcRes := funcR.1
  let argRes := argR.1
  let argBid := argR.2.1
  let σ2 := argR.2.2
  let h1 := funcRes.2.2
  let w1 := funcRes.2.1
  let h2 := argRes.2.2
  let h := max h1 h2 + 1
  let w := w1 + argRes.2.1
  let unitSize := opts.unitSize
  let viaArg : Option String := viaArgColor σ2 a argBid
  let appPick : String × RenderState :=
    match viaArg with
    | some c =>
      (c, { σ2 with componentColors := ("app-" ++ oracle σ2.oracleAt, c) :: σ2.componentColors,
                    oracleAt := σ2.oracleAt + 1 })
    | none =>
      let c := palette opts σ2.colorIndex
      (c, { σ2 with colorIndex := σ2.colorIndex + 1,
                    componentColors := ("app-" ++ oracle σ2.oracleAt, c) :: σ2.componentColors,
                    oracleAt := σ2.oracleAt + 1 })
  let appColor := appPick.1
  let σ3 := appPick.2
  let funcBottom := opts.padding + h1 * unitSize
  let argBottom := opts.padding + h2 * unitSize
  let barY := max funcBottom argBottom
  let horizontalGap := unitSize * (12/10)
  let fillerF : List Prim :=
    if funcBottom < barY then
      [.line (opts.padding + horizontalGap) funcBottom (opts.padding + horizontalGap)
        (funcBottom + (barY - funcBottom)) appColor opts.lineWidth false]
    else []
  let fillerA : List Prim :=
    if argBottom < barY then
      [.line (opts.padding + horizontalGap + 2 * w1 * unitSize) argBottom
        (opts.padding + horizontalGap + 2 * w1 * unitSize)
        (argBottom + (barY - argBottom)) appColor opts.lineWidth false]
    else []
  let barX := opts.padding + horizontalGap
  let barWidth := 2 * w1 * unitSize
  let bar := Prim.line barX barY (barX + barWidth) barY appColor opts.lineWidth false
  let conn1 := Prim.line barX barY barX (max 0 (funcBottom - unitSize))
    appColor opts.lineWidth false
  let conn2 := Prim.line (barX + barWidth) barY (barX + barWidth)
    (max 0 (argBottom - unitSize)) appColor opts.lineWidth false
  let labelled := appLabel opts σ3 f barX barY
  ((fillerF ++ fillerA ++ [bar, conn1, conn2] ++ funcRes.1 ++
      translateSVG argRes.1 (w1 * 2 * unitSize) 0 ++ labelled.1, w, h),
   none, labelled.2)

/-- The resolved defaults of the `TrompDiagramGenerator` constructor
(options argument `{}`). -/
def defaultOptions : Options where
  unitSize := 30
  lineWidth := 3
  padding := 60
  backgroundColor := "#000000"
  colors := ["#ff5555", "#8be9fd", "#50fa7b", "#ffb86c", "#bd93f9",
             "#ff79c6", "#f1fa8c", "#5af78e", "#57c7ff", "#ff6ac1"]
  textColor := "#f8f8f2"
  operatorColor := "#ffb86c"
  churchNumeralColor := "#bd93f9"
  labelPadding := 5
  labelOffset := 0
  labelCollisionOffset := 0
  width := 1200
  height := 900
  showLabels := false
  hideApplicationSymbols := false
  preserveAspectRatio := true

/-- The complete vector document assembled by `generateDiagram`: fixed
canvas, background fill, centering offsets and the translated fragment.
This is the structural content whose fixed serialisation is the SVG
string. -/
structure Doc where
  width : ℚ
  height : ℚ
  backgroundColor : String
  offsetX : ℚ
  offsetY : ℚ
  prims : List Prim
deriving DecidableEq, Repr

/-- The full state of a `TrompDiagramGenerator` instance. -/
structure GenState where
  options : Options
  labelPositions : List BBox
  seenOperations : List String
  componentColors : List (String × String)
  colorIndex : ℕ
  oracleAt : ℕ
deriving Repr

/-- `generateDiagram(lambdaExpression)`: reset the bookkeeping, parse,
convert, resolve indices, size the diagram, scale the unit size to fit,
draw, and restore the original unit size.  The `console.log` calls are
side-effect free.  The scale divisions are exact rational divisions; JS
would produce infinities only for degenerate option sets with a zero
`baseWidth`/`baseHeight`, which no claim exercises. -/
def generateDiagram (g : GenState) (oracle : ℕ → String) (lambdaExpression : String) :
    Except String (Doc × GenState) :=
  -- Reset state for each new diagram
  let g1 : GenState :=
    { g with seenOperations := [], labelPositions := [], componentColors := [],
             colorIndex := 0 }
  match parse lambdaExpression with
  | .error e => .error e
  | .ok parsedTerm =>
    let term := assignIndices (convertParsedTerm parsedTerm) 0 (fun _ => none)
    let opts := g1.options
    let dims := calculateDimensions term
    let baseWidth := dims.1 * opts.unitSize + opts.padding
    let baseHeight := dims.2 * opts.unitSize + opts.padding
    let safetyFactor : ℚ :=
      if term.size > 80 then 1/2 else if term.size > 50 then 3/5 else 7/10
    let marginSize : ℚ := 100
    let scaleFactor :=
      min ((opts.width - marginSize) / baseWidth) ((opts.height - marginSize) / baseHeight)
        * safetyFactor
    let scaledUnitSize := opts.unitSize * scaleFactor
    -- this.options.unitSize = scaledUnitSize (restored after drawing)
    let opts' := { opts with unitSize := scaledUnitSize }
    let width := opts.width
    let height := opts.height
    let scaledWidth := dims.1 * scaledUnitSize + opts.padding * scaleFactor
    let scaledHeight := dims.2 * scaledUnitSize + opts.padding * scaleFactor
    let offsetX := (width - scaledWidth) / 2
    let offsetY := (height - scaledHeight) / 2
    let σ0 : RenderState :=
      ⟨g1.labelPositions, g1.componentColors, g1.colorIndex, g1.oracleAt⟩
    let drawn := drawTermExact opts' oracle term [] false true σ0
    let figure := drawn.1
    let σ1 := drawn.2.2
    .ok (⟨width, height, opts.backgroundColor, offsetX, offsetY, figure.1⟩,
         { options := g.options,  -- unit size restored
           labelPositions := σ1.labelPositions,
           seenOperations := g1.seenOperations,
           componentColors := σ1.componentColors,
           colorIndex := σ1.colorIndex,
           oracleAt := σ1.oracleAt })

/-! # Theorems -/

/-! ## Binding resolution (claims C2, C7) -/

lemma stackIdx_lt_length : ∀ {stack : List String} {n : String} {i : ℕ},
    stackIdx stack n = some i → i < stack.length := by
  intro stack
  induction stack with
  | nil => intro n i h; simp [stackIdx] at h
  | cons v rest ih =>
    intro n i h
    rw [stackIdx] at h
    by_cases hv : n = v
    · rw [if_pos hv] at h
      injection h with h
      subst h
      simp
    · simp only [hv, if_false, Option.map_eq_some'] at h
      obtain ⟨j, hj, rfl⟩ := h
      have := ih hj
      simp only [List.length_cons]
      omega

lemma envOfStack_cons (v : String) (stack : List String) :
    (fun n => if n = v then some stack.length else envOfStack stack n)
      = envOfStack (v :: stack) := by
  funext n
  by_cases hv : n = v
  · simp [envOfStack, stackIdx, hv]
  · simp only [envOfStack, stackIdx, hv, if_false]
    cases hs : stackIdx stack n with
    | none => simp
    | some i =>
      simp only [Option.map_some', List.length_cons]
      congr 1
      omega

lemma envOfStack_nil : (fun _ : String => (none : Option ℕ)) = envOfStack [] := by
  funext n
  simp [envOfStack, stackIdx]

lemma assignIndices_eq_resolveSpec : ∀ (t : Term) (stack : List String),
    assignIndices t stack.length (envOfStack stack) = resolveSpec t stack := by
  intro t
  induction t with
  | var name idx =>
    intro stack
    rw [assignIndices, resolveSpec]
    cases hs : stackIdx stack (normName name) with
    | none => simp [envOfStack, hs]
    | some i =>
      have hi := stackIdx_lt_length hs
      simp only [envOfStack, hs]
      congr 1
      omega
  | lam v body cn ih =>
    intro stack
    rw [assignIndices, resolveSpec]
    rw [envOfStack_cons (normName v) stack]
    exact congrArg (fun b => Term.lam v b cn) (ih (normName v :: stack))
  | app f a ihf iha =>
    intro stack
    rw [assignIndices, resolveSpec, ihf, iha]

/-- C2.  Binding resolution computes `currentDepth - d - 1` from the
environment of binder depths, which equals the distance to the nearest
(innermost) enclosing binder of the name (`resolveSpec`, the spec's
nearest-binder semantics, gives exactly the position of the name's first
occurrence in the innermost-first binder stack).  In particular, parsing
`λx.λx.x` and resolving bindings gives the innermost variable occurrence
index 0, not 1. -/
theorem claim_C2 :
    (∀ (t : Term) (stack : List String),
        assignIndices t stack.length (envOfStack stack) = resolveSpec t stack)
  ∧ (∀ t : Term, assignIndices t 0 (fun _ => none) = resolveSpec t [])
  ∧ (parse "λx.λx.x").map
      (fun p => assignIndices (convertParsedTerm p) 0 (fun _ => none)) =
      .ok (.lam "x" (.lam "x" (.var "x" 0) none) none) := by
  refine ⟨assignIndices_eq_resolveSpec, ?_, by rfl⟩
  intro t
  rw [envOfStack_nil]
  exact assignIndices_eq_resolveSpec t []

lemma resolveSpec_freeVarsZero : ∀ (t : Term) (stack : List String),
    freeVarsZero (resolveSpec t stack) stack = true := by
  intro t
  induction t with
  | var name idx =>
    intro stack
    rw [resolveSpec]
    cases hs : stackIdx stack (normName name) with
    | none => simp [freeVarsZero, hs]
    | some i => simp [freeVarsZero, hs]
  | lam v body cn ih =>
    intro stack
    rw [resolveSpec, freeVarsZero]
    exact ih (normName v :: stack)
  | app f a ihf iha =>
    intro stack
    rw [resolveSpec, freeVarsZero]
    simp [ihf, iha]

/-- C7.  Binding resolution is a total function (`assignIndices` raises
nothing), and every variable occurrence bound by no enclosing abstraction
receives the free-variable sentinel index 0; in particular `λx.y` resolves
with `y` at index 0. -/
theorem claim_C7 :
    (∀ t : Term, freeVarsZero (assignIndices t 0 (fun _ => none)) [] = true)
  ∧ (parse "λx.y").map
      (fun p => assignIndices (convertParsedTerm p) 0 (fun _ => none)) =
      .ok (.lam "x" (.var "y" 0) none) := by
  refine ⟨?_, by rfl⟩
  intro t
  rw [envOfStack_nil, show (0 : ℕ) = ([] : List String).length from rfl,
    assignIndices_eq_resolveSpec t []]
  exact resolveSpec_freeVarsZero t []

/-! ## Layout dimensions (claim C1) -/

lemma draw_var_dims (opts : Options) (o : ℕ → String) (name : String) (idx : ℤ)
    (anc : List (Option String)) (ic ir : Bool) (σ : RenderState) :
    (drawTermExact opts o (.var name idx) anc ic ir σ).1.2 = (1, 0) := rfl

lemma draw_lam_dims (opts : Options) (o : ℕ → String) (v : String) (b : Term)
    (cn : Option ℤ) (anc : List (Option String)) (ic ir : Bool) (σ : RenderState) :
    (drawTermExact opts o (.lam v b cn) anc ic ir σ).1.2 =
      ((drawTermExact opts o b (none :: anc) (ic || cn.isSome) false σ).1.2.1,
       (drawTermExact opts o b (none :: anc) (ic || cn.isSome) false σ).1.2.2 + 1) := rfl

lemma draw_app_dims (opts : Options) (o : ℕ → String) (f a : Term)
    (anc : List (Option String)) (ic ir : Bool) (σ : RenderState) :
    (drawTermExact opts o (.app f a) anc ic ir σ).1.2 =
      ((drawTermExact opts o f anc ic false σ).1.2.1 +
        (drawTermExact opts o a anc ic false
          (drawTermExact opts o f anc ic false σ).2.2).1.2.1,
       max (drawTermExact opts o f anc ic false σ).1.2.2
        (drawTermExact opts o a anc ic false
          (drawTermExact opts o f anc ic false σ).2.2).1.2.2 + 1) := rfl

lemma drawTermExact_dims : ∀ (t : Term) (opts : Options) (o : ℕ → String)
    (anc : List (Option String)) (ic ir : Bool) (σ : RenderState),
    (drawTermExact opts o t anc ic ir σ).1.2.1 = (calculateWidth t : ℚ) ∧
    (drawTermExact opts o t anc ic ir σ).1.2.2 = (calculateHeight t : ℚ) := by
  intro t
  induction t with
  | var name idx =>
    intro opts o anc ic ir σ
    have h := draw_var_dims opts o name idx anc ic ir σ
    rw [Prod.ext_iff] at h
    exact ⟨h.1.trans (by norm_num [calculateWidth]),
           h.2.trans (by norm_num [calculateHeight])⟩
  | lam v body cn ih =>
    intro opts o anc ic ir σ
    have h := draw_lam_dims opts o v body cn anc ic ir σ
    rw [Prod.ext_iff] at h
    have hb := ih opts o (none :: anc) (ic || cn.isSome) false σ
    refine ⟨h.1.trans (by rw [hb.1, calculateWidth]), h.2.trans ?_⟩
    rw [hb.2, calculateHeight]
    push_cast
    ring
  | app f a ihf iha =>
    intro opts o anc ic ir σ
    have h := draw_app_dims opts o f a anc ic ir σ
    rw [Prod.ext_iff] at h
    have hf := ihf opts o anc ic false σ
    have ha := iha opts o anc ic false (drawTermExact opts o f anc ic false σ).2.2
    constructor
    · rw [h.1, hf.1, ha.1, calculateWidth]
      push_cast
      ring
    · rw [h.2, hf.2, ha.2, calculateHeight]
      push_cast [Nat.cast_max]
      rw [add_comm]

/-- C1.  The layout dimension computation satisfies the Tromp-diagram
recurrence: variables are 1 × 0, an abstraction is its body plus one unit of
height, an application is the sum of widths by the maximum height plus one —
both in `_getDimensions` (with the legacy `calculateWidth`/`calculateHeight`
agreeing) and in the `(width, height)` returned by `drawTermExact`. -/
theorem claim_C1 :
    (∀ (name : String) (idx : ℤ), getDimensions (.var name idx) = (1, 0))
  ∧ (∀ (v : String) (b : Term) (cn : Option ℤ),
      getDimensions (.lam v b cn) = ((getDimensions b).1, (getDimensions b).2 + 1))
  ∧ (∀ f a : Term, getDimensions (.app f a) =
      ((getDimensions f).1 + (getDimensions a).1,
        max (getDimensions f).2 (getDimensions a).2 + 1))
  ∧ (∀ t : Term,
      calculateWidth t = (getDimensions t).1 ∧ calculateHeight t = (getDimensions t).2)
  ∧ (∀ (t : Term) (opts : Options) (o : ℕ → String) (anc : List (Option String))
      (ic ir : Bool) (σ : RenderState),
      (drawTermExact opts o t anc ic ir σ).1.2.1 = (calculateWidth t : ℚ) ∧
      (drawTermExact opts o t anc ic ir σ).1.2.2 = (calculateHeight t : ℚ)) := by
  refine ⟨fun name idx => rfl, ?_, ?_, ?_, drawTermExact_dims⟩
  · intro v b cn
    simp [getDimensions, Nat.add_comm]
  · intro f a
    simp [getDimensions, Nat.add_comm]
  · intro t
    induction t with
    | var name idx => simp [calculateWidth, calculateHeight, getDimensions]
    | lam v b cn ih => simp [calculateWidth, calculateHeight, getDimensions, ih.1, ih.2]
    | app f a ihf iha =>
      simp [calculateWidth, calculateHeight, getDimensions, ihf.1, ihf.2, iha.1, iha.2]

/-! ## Church numerals (claim C3) -/

lemma churchBody_shape : ∀ n : ℕ, shape (churchBody n) = churchSpecShape.go n := by
  intro n
  induction n with
  | zero => rfl
  | succ k ih => rw [churchBody, churchSpecShape.go, shape, ih, shape]

/-- C3.  A numeric variable token is replaced by the canonical
Church-numeral term: `createChurchNumeral n` has exactly the shape
`λf.λx.f^n(x)` of the spec, `convertParsedTerm` substitutes it for any
variable token whose text is a decimal numeral, and in particular the token
`3` yields the shape `λf.λx.f(f(f(x)))`. -/
theorem claim_C3 :
    (∀ n : ℕ, shape (createChurchNumeral n) = churchSpecShape n)
  ∧ (∀ (name : String) (n : ℕ), jsNumeric name = some n →
      convertParsedTerm (.variable name) = createChurchNumeral n)
  ∧ shape (convertParsedTerm (.variable "3")) = churchSpecShape 3 := by
  refine ⟨?_, ?_, by rfl⟩
  · intro n
    by_cases h : n = 0
    · subst h; rfl
    · rw [createChurchNumeral, if_neg h]
      simp only [shape, churchSpecShape, churchBody_shape]
  · intro name n h
    rw [convertParsedTerm, h]

theorem claim_C3_witness :
    jsNumeric "3" = some 3 ∧
      convertParsedTerm (.variable "3") = createChurchNumeral 3 :=
  ⟨by rfl, claim_C3.2.1 "3" 3 (by rfl)⟩

/-! ## Parser (claims C4, C6) -/

/-- C4.  Application parses left-associatively: for any three juxtaposed
variable tokens the parser produces `((a b) c)`, and concretely
`parse "f a b"` is `Application(Application(f, a), b)`. -/
theorem claim_C4 :
    (∀ a b c : String,
      parseTokens [⟨.VAR, a⟩, ⟨.VAR, b⟩, ⟨.VAR, c⟩, ⟨.EOF, "EOF"⟩] =
        .ok (.application (.application (.variable a) (.variable b)) (.variable c)))
  ∧ parse "f a b" =
      .ok (.application (.application (.variable "f") (.variable "a")) (.variable "b")) := by
  exact ⟨fun a b c => rfl, rfl⟩

/-- Counterexample for C6: the same malformed-lambda violation at two
different source positions (`λ.` at offset 1, and inside `λx.λ.` at offset
4) produces byte-for-byte identical errors, so the raised error cannot
identify the offending token's source position — the tokens carry no
position and `expect` reports only the expected and found token types. -/
theorem claim_C6_counterexample :
    parse "λ." = .error "Expected VAR, got DOT"
  ∧ parse "λx.λ." = .error "Expected VAR, got DOT" :=
  ⟨rfl, rfl⟩

/-- C6 (amended).  For each of the four malformed cases — lambda not
followed by a variable, missing dot in an abstraction, unclosed
parenthesized group, stray tokens after a complete parse — the strict
parser raises a syntax error naming the expected and the offending token
types, but not the token's source position. -/
theorem claim_C6 :
    parse "λ." = .error "Expected VAR, got DOT"
  ∧ parse "λx x" = .error "Expected DOT, got VAR"
  ∧ parse "(x" = .error "Expected RPAREN, got EOF"
  ∧ parse "x)" = .error "Expected EOF, got RPAREN" :=
  ⟨rfl, rfl, rfl, rfl⟩

/-! ## Character-grid renderer (claims C5, C8, C10) -/

/-- C5 (code bug).  The renderer is *not* a total best-effort function: a
line primitive whose four coordinate attributes are present but non-numeric
parses to `NaN` coordinates that slip through the clamp, and the Bresenham
branch then throws a `TypeError` writing to `canvas[NaN]`.  A primitive with
*missing* coordinate attributes is skipped as the spec says (second
conjunct). -/
theorem claim_C5 :
    renderSVGAsASCII fail5doc true = .error "TypeError: Cannot set properties of undefined"
  ∧ (renderSVGAsASCII skipDoc true).isOk = true := by
  exact ⟨by rfl, by rfl⟩

/-- Counterexample for C8: for a simple document (one line primitive,
600 × 600), the renderer's scale factors are horizontal 0.3 and vertical
0.2 · 1.2 = 0.24 — the vertical factor is *smaller*, not proportionally
larger.  The first three conjuncts pin the parameters the renderer computes
for this document. -/
theorem claim_C8_counterexample :
    countLineTags c8doc = 1
  ∧ (match firstAttrVal "width=\"" c8doc with
     | some s => parseIntJs s
     | none => some 1200) = some 600
  ∧ jsGtI (some 600) (some 1000) = false
  ∧ asciiScaleFactors 1 false true = (3/10, 6/25)
  ∧ ¬ ((3 : ℚ)/10 < 6/25) := by
  refine ⟨rfl, rfl, rfl, by norm_num [asciiScaleFactors], by norm_num⟩

/-- C8 (amended).  With the default `preserveSpacing = true`, the vertical
scale factor exceeds the horizontal one exactly for complex documents
(complex-wide, or more than 50 line primitives); for simple documents the
horizontal factor 0.3 exceeds the vertical 0.24. -/
theorem claim_C8 (lineCount : ℕ) (width : Option ℤ) :
    (((decide (lineCount > 200) || jsGtI width (some 1000)) = true ∨ lineCount > 50) →
      (asciiScaleFactors lineCount (decide (lineCount > 200) || jsGtI width (some 1000)) true).1
        < (asciiScaleFactors lineCount (decide (lineCount > 200) || jsGtI width (some 1000)) true).2)
  ∧ ((decide (lineCount > 200) || jsGtI width (some 1000)) = false ∧ lineCount ≤ 50 →
      (asciiScaleFactors lineCount (decide (lineCount > 200) || jsGtI width (some 1000)) true).2
        < (asciiScaleFactors lineCount (decide (lineCount > 200) || jsGtI width (some 1000)) true).1) := by
  constructor
  · intro hc
    cases hcw : (decide (lineCount > 200) || jsGtI width (some 1000)) with
    | true =>
      simp only [asciiScaleFactors, hcw, if_true]
      norm_num
    | false =>
      have hlc : lineCount > 50 := by
        rcases hc with h | h
        · rw [hcw] at h; exact absurd h (by simp)
        · exact h
      simp only [asciiScaleFactors, hcw, Bool.false_eq_true, if_false]
      by_cases h100 : lineCount > 100
      · simp only [h100, if_true]
        norm_num
      · simp only [h100, if_false, hlc, if_true]
        norm_num
  · rintro ⟨hcw, hlc⟩
    have h100 : ¬ (lineCount > 100) := by omega
    have h50 : ¬ (lineCount > 50) := by omega
    simp only [asciiScaleFactors, hcw, Bool.false_eq_true, if_false, h100, h50]
    norm_num

theorem claim_C8_witness :
    (asciiScaleFactors 60 (decide (60 > 200) || jsGtI (some 600) (some 1000)) true).1 <
      (asciiScaleFactors 60 (decide (60 > 200) || jsGtI (some 600) (some 1000)) true).2
  ∧ (asciiScaleFactors 1 (decide (1 > 200) || jsGtI (some 600) (some 1000)) true).2 <
      (asciiScaleFactors 1 (decide (1 > 200) || jsGtI (some 600) (some 1000)) true).1 :=
  ⟨(claim_C8 60 (some 600)).1 (Or.inr (by norm_num)),
   (claim_C8 1 (some 600)).2 ⟨by rfl, by norm_num⟩⟩

/-! ### Bounds of the line-tracing writes (claim C10) -/

@[simp] lemma jsEqI_some (a b : ℤ) : jsEqI (some a) (some b) = decide (a = b) := rfl
@[simp] lemma jsLtI_some (a b : ℤ) : jsLtI (some a) (some b) = decide (a < b) := rfl
@[simp] lemma jsGtI_some (a b : ℤ) : jsGtI (some a) (some b) = decide (a > b) := rfl
@[simp] lemma jsLeI_some (a b : ℤ) : jsLeI (some a) (some b) = decide (a ≤ b) := rfl
@[simp] lemma jsAddI_some (a b : ℤ) : jsAddI (some a) (some b) = some (a + b) := rfl
@[simp] lemma jsSubI_some (a b : ℤ) : jsSubI (some a) (some b) = some (a - b) := rfl
@[simp] lemma jsMulI_some (a b : ℤ) : jsMulI (some a) (some b) = some (a * b) := rfl
@[simp] lemma jsAbsI_some (a : ℤ) : jsAbsI (some a) = some |a| := rfl
@[simp] lemma jsNegI_some (a : ℤ) : jsNegI (some a) = some (-a) := rfl

lemma gridDims_row (g : Grid) (h w : ℕ) (hg : GridDims g h w) (n : ℕ) (hn : n < g.length) :
    (g.getD n []).length = w := by
  have : g.getD n [] ∈ g := by
    rw [List.getD_eq_getElem?_getD, List.getElem?_eq_getElem hn]
    exact List.getElem_mem _
  exact hg.2 _ this

lemma gridDims_setCell (g : Grid) (h w : ℕ) (hg : GridDims g h w) (y x : ℕ) (c : Char)
    (hy : y < g.length) : GridDims (setCell g y x c) h w := by
  constructor
  · rw [setCell, List.length_set, hg.1]
  · intro row hrow
    rcases List.mem_or_eq_of_mem_set hrow with hmem | heq
    · exact hg.2 _ hmem
    · rcases heq with rfl
      rw [List.length_set, gridDims_row g h w hg y hy]

lemma writeCellJs_ok (g : Grid) (h w : ℕ) (y x : ℤ) (c : Char)
    (hg : GridDims g h w) (hy : 0 ≤ y) (hy' : y < h) (hx : 0 ≤ x) (hx' : x < w) :
    writeCellJs g (some y) (some x) c = .ok (setCell g y.toNat x.toNat c) := by
  have hylen : y.toNat < g.length := by
    rw [hg.1]; omega
  have hrow : (g.getD y.toNat []).length = w := gridDims_row g h w hg y.toNat hylen
  have hcond1 : 0 ≤ y ∧ y < (g.length : ℤ) := by
    refine ⟨hy, ?_⟩
    rw [hg.1]; omega
  have hcond2 : 0 ≤ x ∧ x < ((g.getD y.toNat []).length : ℤ) := by
    rw [hrow]; exact ⟨hx, hx'⟩
  simp only [writeCellJs]
  rw [if_pos hcond1, if_pos hcond2]

lemma writes_fold_ok (h w : ℕ) (c : Char) (pos : ℕ → ℤ × ℤ) :
    ∀ (l : List ℕ) (g : Grid), GridDims g h w →
      (∀ i ∈ l, 0 ≤ (pos i).1 ∧ (pos i).1 < h ∧ 0 ≤ (pos i).2 ∧ (pos i).2 < w) →
      ∃ g', l.foldlM (fun g i => writeCellJs g (some (pos i).1) (some (pos i).2) c) g
          = .ok g' ∧ GridDims g' h w := by
  intro l
  induction l with
  | nil => intro g hg _; exact ⟨g, rfl, hg⟩
  | cons a rest ih =>
    intro g hg hall
    obtain ⟨h1, h2, h3, h4⟩ := hall a (List.mem_cons_self a rest)
    have heq := writeCellJs_ok g h w (pos a).1 (pos a).2 c hg h1 h2 h3 h4
    have hg' := gridDims_setCell g h w hg (pos a).1.toNat (pos a).2.toNat c
      (by rw [hg.1]; omega)
    obtain ⟨g', hfold, hgd⟩ := ih _ hg' (fun i hi => hall i (List.mem_cons_of_mem a hi))
    refine ⟨g', ?_, hgd⟩
    rw [List.foldlM_cons, heq]
    simpa using hfold

/-- `sx · |x2 - x1| = x2 - x1` for `sx` the step sign. -/
lemma sign_mul_abs (x1 x2 : ℤ) (hne : x1 ≠ x2) :
    (if x1 < x2 then (1 : ℤ) else -1) * |x2 - x1| = x2 - x1 := by
  rcases lt_or_gt_of_ne hne with h | h
  · rw [if_pos h, one_mul, abs_of_pos] ; omega
  · rw [if_neg (by omega), abs_of_neg (by omega)]
    ring

/-- At `u = dx` with `v` not yet arrived, the x-step guard `2·err > -dy`
fails. -/
lemma bres_no_xstep (dx dy v err : ℤ) (hdx : 1 ≤ dx) (hdy : 1 ≤ dy)
    (hv : v + 1 ≤ dy)
    (herr : err = dx - dy - dx * dy + v * dx) : 2 * err ≤ -dy := by
  nlinarith [mul_le_mul_of_nonneg_left hv (show (0 : ℤ) ≤ 2 * dx by linarith)]

/-- At `v = dy` with `u` not yet arrived, the y-step guard `2·err < dx`
fails. -/
lemma bres_no_ystep (dx dy u err : ℤ) (hdx : 1 ≤ dx) (hdy : 1 ≤ dy)
    (hu : u + 1 ≤ dx)
    (herr : err = dx - dy - u * dy + dy * dx) : dx ≤ 2 * err := by
  nlinarith [mul_le_mul_of_nonneg_left hu (show (0 : ℤ) ≤ 2 * dy by linarith)]

/-- `x1 + sx·u = x2` exactly when `u = |x2 - x1|`. -/
lemma step_eq_iff (x1 x2 u : ℤ) (hne : x1 ≠ x2) :
    x1 + (if x1 < x2 then (1 : ℤ) else -1) * u = x2 ↔ u = |x2 - x1| := by
  rcases lt_or_gt_of_ne hne with hlt | hgt
  · rw [if_pos hlt, abs_of_pos (by omega : (0 : ℤ) < x2 - x1)]
    omega
  · rw [if_neg (by omega), abs_of_neg (by omega : x2 - x1 < 0)]
    omega

/-- A stepped coordinate stays between the endpoints. -/
lemma step_in_box (x1 x2 u : ℤ) (hne : x1 ≠ x2) (hu0 : 0 ≤ u) (hu : u ≤ |x2 - x1|) :
    min x1 x2 ≤ x1 + (if x1 < x2 then (1 : ℤ) else -1) * u ∧
      x1 + (if x1 < x2 then (1 : ℤ) else -1) * u ≤ max x1 x2 := by
  rcases lt_or_gt_of_ne hne with hlt | hgt
  · rw [if_pos hlt] at *
    rw [abs_of_pos (by omega : (0 : ℤ) < x2 - x1)] at hu
    omega
  · rw [if_neg (by omega)] at *
    rw [abs_of_neg (by omega : x2 - x1 < 0)] at hu
    omega

lemma abs_one_le (a b : ℤ) (hne : a ≠ b) : 1 ≤ |b - a| := by
  rcases lt_or_gt_of_ne hne with hlt | hgt
  · rw [abs_of_pos (by omega : (0 : ℤ) < b - a)]; omega
  · rw [abs_of_neg (by omega : b - a < 0)]; omega

/-- The step invariant of the Bresenham loop: the current cell is `u` x-steps
and `v` y-steps from the start, neither axis has overshot, and `err` carries
its closed form. -/
def BresInv (x1 y1 sx sy dx dy : ℤ) (u v : ℕ) (x y err : ℤ) : Prop :=
  x = x1 + sx * u ∧ y = y1 + sy * v ∧ (u : ℤ) ≤ dx ∧ (v : ℤ) ≤ dy ∧
    err = dx - dy - u * dy + v * dx

/-- One iteration of the Bresenham step re-establishes the invariant with
at least one of `u`, `v` incremented, provided the endpoint has not been
reached. -/
lemma bres_step (x1 y1 x2 y2 sx sy dx dy : ℤ)
    (hdx : dx = |x2 - x1|) (hdy : dy = |y2 - y1|)
    (hsx : sx = if x1 < x2 then 1 else -1) (hsy : sy = if y1 < y2 then 1 else -1)
    (hxne : x1 ≠ x2) (hyne : y1 ≠ y2)
    (u v : ℕ) (x y err : ℤ) (hinv : BresInv x1 y1 sx sy dx dy u v x y err)
    (hend : ¬ (x = x2 ∧ y = y2)) :
    ∃ u' v' : ℕ, u + v + 1 ≤ u' + v' ∧
      BresInv x1 y1 sx sy dx dy u' v'
        (if 2 * err > -dy then x + sx else x)
        (if 2 * err < dx then y + sy else y)
        (if 2 * err < dx then (if 2 * err > -dy then err - dy else err) + dx
         else (if 2 * err > -dy then err - dy else err)) := by
  obtain ⟨hxval, hyval, hub, hvb, herr⟩ := hinv
  have hdx1 : 1 ≤ dx := hdx ▸ abs_one_le x1 x2 hxne
  have hdy1 : 1 ≤ dy := hdy ▸ abs_one_le y1 y2 hyne
  have hxiff : x = x2 ↔ (u : ℤ) = dx := by
    rw [hxval, hdx, hsx]; exact step_eq_iff x1 x2 u hxne
  have hyiff : y = y2 ↔ (v : ℤ) = dy := by
    rw [hyval, hdy, hsy]; exact step_eq_iff y1 y2 v hyne
  have hxguard : 2 * err > -dy → (u : ℤ) < dx := by
    intro hgt
    rcases eq_or_lt_of_le hub with hueq | h
    · exfalso
      rcases eq_or_lt_of_le hvb with hveq | hvlt
      · exact hend ⟨hxiff.mpr hueq, hyiff.mpr hveq⟩
      · have herr' : err = dx - dy - dx * dy + v * dx := by
          rw [herr, ← hueq]
        have := bres_no_xstep dx dy v err hdx1 hdy1 (by omega) herr'
        omega
    · exact h
  have hyguard : 2 * err < dx → (v : ℤ) < dy := by
    intro hlt
    rcases eq_or_lt_of_le hvb with hveq | h
    · exfalso
      rcases eq_or_lt_of_le hub with hueq | hult
      · exact hend ⟨hxiff.mpr hueq, hyiff.mpr hveq⟩
      · have herr' : err = dx - dy - u * dy + dy * dx := by
          rw [herr, ← hveq]
        have := bres_no_ystep dx dy u err hdx1 hdy1 (by omega) herr'
        omega
    · exact h
  by_cases hxs : 2 * err > -dy
  · by_cases hys : 2 * err < dx
    · refine ⟨u + 1, v + 1, by omega, ?_, ?_, ?_, ?_, ?_⟩
      · rw [if_pos hxs, hxval]; push_cast; ring
      · rw [if_pos hys, hyval]; push_cast; ring
      · have := hxguard hxs; push_cast; omega
      · have := hyguard hys; push_cast; omega
      · rw [if_pos hys, if_pos hxs, herr]; push_cast; ring
    · refine ⟨u + 1, v, by omega, ?_, ?_, ?_, hvb, ?_⟩
      · rw [if_pos hxs, hxval]; push_cast; ring
      · rw [if_neg hys, hyval]
      · have := hxguard hxs; push_cast; omega
      · rw [if_neg hys, if_pos hxs, herr]; push_cast; ring
  · by_cases hys : 2 * err < dx
    · refine ⟨u, v + 1, by omega, ?_, ?_, hub, ?_, ?_⟩
      · rw [if_neg hxs, hxval]
      · rw [if_pos hys, hyval]; push_cast; ring
      · have := hyguard hys; push_cast; omega
      · rw [if_pos hys, if_neg hxs, herr]; push_cast; ring
    · exfalso
      omega

/-- Every cell visited by the Bresenham recursion stays inside the bounding
box of the two endpoints, from any state satisfying the step invariant. -/
lemma bresPoints_mem_box_aux (x1 y1 x2 y2 sx sy dx dy : ℤ)
    (hdx : dx = |x2 - x1|) (hdy : dy = |y2 - y1|)
    (hsx : sx = if x1 < x2 then 1 else -1) (hsy : sy = if y1 < y2 then 1 else -1)
    (hxne : x1 ≠ x2) (hyne : y1 ≠ y2) :
    ∀ (fuel : ℕ) (u v : ℕ) (x y err : ℤ),
      BresInv x1 y1 sx sy dx dy u v x y err →
      ∀ p ∈ bresPoints dx dy x2 y2 sx sy fuel x y err,
        (min y1 y2 ≤ p.1 ∧ p.1 ≤ max y1 y2) ∧ (min x1 x2 ≤ p.2 ∧ p.2 ≤ max x1 x2) := by
  intro fuel
  induction fuel with
  | zero =>
    intro u v x y err _ p hp
    simp [bresPoints] at hp
  | succ n ih =>
    intro u v x y err hinv p hp
    rw [bresPoints] at hp
    rcases List.mem_cons.mp hp with rfl | htail
    · obtain ⟨hxval, hyval, hub, hvb, _⟩ := hinv
      rw [hxval, hyval, hsx, hsy]
      refine ⟨?_, ?_⟩
      · rw [hdy] at hvb
        exact step_in_box y1 y2 v hyne (by positivity) hvb
      · rw [hdx] at hub
        exact step_in_box x1 x2 u hxne (by positivity) hub
    · by_cases hend : x = x2 ∧ y = y2
      · rw [if_pos hend] at htail
        simp at htail
      · rw [if_neg hend] at htail
        obtain ⟨u', v', _, hinv'⟩ :=
          bres_step x1 y1 x2 y2 sx sy dx dy hdx hdy hsx hsy hxne hyne
            u v x y err hinv hend
        exact ih u' v' _ _ _ hinv' p htail

@[simp] lemma except_bind_ok {ε α β : Type} (a : α) (f : α → Except ε β) :
    (Except.ok a >>= f : Except ε β) = f a := rfl

/-- The Bresenham loop of `drawLineOnCanvas`, run on clamped integer
coordinates inside the grid, terminates with `.ok`: every write lands on an
in-range row and column. -/
lemma bresLoop_ok (x1 y1 x2 y2 sx sy dx dy : ℤ) (h w : ℕ) (char : Char)
    (hdx : dx = |x2 - x1|) (hdy : dy = |y2 - y1|)
    (hsx : sx = if x1 < x2 then 1 else -1) (hsy : sy = if y1 < y2 then 1 else -1)
    (hxne : x1 ≠ x2) (hyne : y1 ≠ y2)
    (hx1 : 0 ≤ x1) (hx1' : x1 < w) (hx2 : 0 ≤ x2) (hx2' : x2 < w)
    (hy1 : 0 ≤ y1) (hy1' : y1 < h) (hy2 : 0 ≤ y2) (hy2' : y2 < h) :
    ∀ (fuel : ℕ) (u v : ℕ) (x y err : ℤ) (g : Grid),
      GridDims g h w →
      BresInv x1 y1 sx sy dx dy u v x y err →
      dx + dy - u - v < fuel →
      ∃ g', bresLoopJs dx dy (some x2) (some y2) sx sy char fuel g
          (some x) (some y) (some err) = .ok g' ∧ GridDims g' h w := by
  intro fuel
  induction fuel with
  | zero =>
    intro u v x y err g hg hinv hfuel
    exfalso
    obtain ⟨_, _, hub, hvb, _⟩ := hinv
    omega
  | succ n ih =>
    intro u v x y err g hg hinv hfuel
    obtain ⟨hxval, hyval, hub, hvb, herr⟩ := hinv
    have hxbox : min x1 x2 ≤ x ∧ x ≤ max x1 x2 := by
      rw [hxval, hsx]
      exact step_in_box x1 x2 u hxne (by positivity) (by rw [← hdx]; exact hub)
    have hybox : min y1 y2 ≤ y ∧ y ≤ max y1 y2 := by
      rw [hyval, hsy]
      exact step_in_box y1 y2 v hyne (by positivity) (by rw [← hdy]; exact hvb)
    have hx0 : 0 ≤ x := le_trans (le_min hx1 hx2) hxbox.1
    have hxw : x < w := lt_of_le_of_lt hxbox.2 (max_lt hx1' hx2')
    have hy0 : 0 ≤ y := le_trans (le_min hy1 hy2) hybox.1
    have hyh : y < h := lt_of_le_of_lt hybox.2 (max_lt hy1' hy2')
    have hwrite := writeCellJs_ok g h w y x char hg hy0 hyh hx0 hxw
    have hg' := gridDims_setCell g h w hg y.toNat x.toNat char (by rw [hg.1]; omega)
    rw [bresLoopJs, hwrite, except_bind_ok]
    by_cases hend : x = x2 ∧ y = y2
    · rw [if_pos (by simpa using hend)]
      exact ⟨_, rfl, hg'⟩
    · rw [if_neg (by simpa using hend)]
      obtain ⟨u', v', hprog, hinv'⟩ :=
        bres_step x1 y1 x2 y2 sx sy dx dy hdx hdy hsx hsy hxne hyne
          u v x y err ⟨hxval, hyval, hub, hvb, herr⟩ hend
      have hu'b := hinv'.2.2.1
      have hv'b := hinv'.2.2.2.1
      have hfuel' : dx + dy - u' - v' < n := by omega
      by_cases hxs : 2 * err > -dy <;> by_cases hys : 2 * err < dx
      · have hxs' : (decide (2 * err > -dy)) = true := by simpa using hxs
        have hys' : (decide (2 * err < dx)) = true := by simpa using hys
        simp only [if_pos hxs, if_pos hys] at hinv'
        simp only [jsMulI_some, jsNegI_some, jsGtI_some, jsLtI_some, hxs', hys',
          if_true, jsAddI_some, jsSubI_some]
        exact ih u' v' _ _ _ _ hg' hinv' hfuel'
      · have hxs' : (decide (2 * err > -dy)) = true := by simpa using hxs
        have hys' : (decide (2 * err < dx)) = false := by simpa using hys
        simp only [if_pos hxs, if_neg hys] at hinv'
        simp only [jsMulI_some, jsNegI_some, jsGtI_some, jsLtI_some, hxs', hys',
          if_true, Bool.false_eq_true, if_false, jsAddI_some, jsSubI_some]
        exact ih u' v' _ _ _ _ hg' hinv' hfuel'
      · have hxs' : (decide (2 * err > -dy)) = false := by simpa using hxs
        have hys' : (decide (2 * err < dx)) = true := by simpa using hys
        simp only [if_neg hxs, if_pos hys] at hinv'
        simp only [jsMulI_some, jsNegI_some, jsGtI_some, jsLtI_some, hxs', hys',
          if_true, Bool.false_eq_true, if_false, jsAddI_some, jsSubI_some]
        exact ih u' v' _ _ _ _ hg' hinv' hfuel'
      · have hxs' : (decide (2 * err > -dy)) = false := by simpa using hxs
        have hys' : (decide (2 * err < dx)) = false := by simpa using hys
        simp only [if_neg hxs, if_neg hys] at hinv'
        simp only [jsMulI_some, jsNegI_some, jsGtI_some, jsLtI_some, hxs', hys',
          Bool.false_eq_true, if_false, jsAddI_some, jsSubI_some]
        exact ih u' v' _ _ _ _ hg' hinv' hfuel'

lemma gridDims_headD (g : Grid) (h w : ℕ) (hg : GridDims g h w) (hh : 0 < h) :
    (g.headD []).length = w := by
  cases g with
  | nil => exact absurd hg.1 (by simpa using Nat.ne_of_lt hh)
  | cons r rest => exact hg.2 r (List.mem_cons_self r rest)

lemma drawLineOnCanvas_def (g : Grid) (x1 y1 x2 y2 : Option ℤ) :
    drawLineOnCanvas g x1 y1 x2 y2 =
      if jsEqI y1 y2 then drawHoriz g x1 x2 y1
      else if jsEqI x1 x2 then drawVert g y1 y2 x1
      else drawDiag g x1 y1 x2 y2 := rfl

lemma drawHoriz_some (g : Grid) (a b yv : ℤ) :
    drawHoriz g (some a) (some b) (some yv) =
      (List.range ((max a b - min a b).toNat + 1)).foldlM
        (fun g (i : ℕ) => writeCellJs g (some yv) (some (min a b + (i : ℤ))) '─') g := rfl

lemma drawVert_some (g : Grid) (a b xv : ℤ) :
    drawVert g (some a) (some b) (some xv) =
      (List.range ((max a b - min a b).toNat + 1)).foldlM
        (fun g (i : ℕ) => writeCellJs g (some (min a b + (i : ℤ))) (some xv) '│') g := rfl

lemma drawDiag_some (g : Grid) (x1 y1 x2 y2 : ℤ) :
    drawDiag g (some x1) (some y1) (some x2) (some y2) =
      (bresLoopJs (some |x2 - x1|) (some |y2 - y1|) (some x2) (some y2)
        (if jsLtI (some x1) (some x2) then 1 else -1)
        (if jsLtI (some y1) (some y2) then 1 else -1)
        (diagChar (some x1) (some y1) (some x2) (some y2))
        (g.length + (g.headD []).length + 2) g (some x1) (some y1)
        (some (|x2 - x1| - |y2 - y1|))) >>=
        (fun g' => Except.ok (improveIntersections g')) := rfl

/-- `drawLineOnCanvas` on clamped in-grid endpoints never raises. -/
lemma drawLineOnCanvas_ok (g : Grid) (h w : ℕ) (x1 y1 x2 y2 : ℤ)
    (hg : GridDims g h w)
    (hx1 : 0 ≤ x1) (hx1' : x1 < w) (hx2 : 0 ≤ x2) (hx2' : x2 < w)
    (hy1 : 0 ≤ y1) (hy1' : y1 < h) (hy2 : 0 ≤ y2) (hy2' : y2 < h) :
    ∃ g', drawLineOnCanvas g (some x1) (some y1) (some x2) (some y2) = .ok g' := by
  rw [drawLineOnCanvas_def]
  by_cases hyy : y1 = y2
  · rw [if_pos (by simpa using hyy), drawHoriz_some]
    obtain ⟨g', hfold, _⟩ := writes_fold_ok h w '─' (fun i => (y1, min x1 x2 + i))
      (List.range ((max x1 x2 - min x1 x2).toNat + 1)) g hg
      (by
        intro i hi
        rw [List.mem_range] at hi
        dsimp only
        refine ⟨hy1, hy1', by omega, by omega⟩)
    exact ⟨g', hfold⟩
  · rw [if_neg (by simpa using hyy)]
    by_cases hxx : x1 = x2
    · rw [if_pos (by simpa using hxx), drawVert_some]
      obtain ⟨g', hfold, _⟩ := writes_fold_ok h w '│' (fun i => (min y1 y2 + i, x1))
        (List.range ((max y1 y2 - min y1 y2).toNat + 1)) g hg
        (by
          intro i hi
          rw [List.mem_range] at hi
          dsimp only
          refine ⟨by omega, by omega, hx1, hx1'⟩)
      exact ⟨g', hfold⟩
    · rw [if_neg (by simpa using hxx), drawDiag_some]
      have hdxw : |x2 - x1| ≤ (w : ℤ) - 1 := abs_le.mpr ⟨by omega, by omega⟩
      have hdyh : |y2 - y1| ≤ (h : ℤ) - 1 := abs_le.mpr ⟨by omega, by omega⟩
      have hhead : (g.headD []).length = w := gridDims_headD g h w hg (by omega)
      obtain ⟨gb, hloop, _⟩ := bresLoop_ok x1 y1 x2 y2
        (if jsLtI (some x1) (some x2) then 1 else -1)
        (if jsLtI (some y1) (some y2) then 1 else -1)
        |x2 - x1| |y2 - y1| h w (diagChar (some x1) (some y1) (some x2) (some y2))
        rfl rfl (by simp) (by simp) hxx hyy
        hx1 hx1' hx2 hx2' hy1 hy1' hy2 hy2'
        (g.length + (g.headD []).length + 2) 0 0 x1 y1 (|x2 - x1| - |y2 - y1|) g hg
        (by
          refine ⟨by push_cast; ring, by push_cast; ring, ?_, ?_, by push_cast; ring⟩
          · have := abs_one_le x1 x2 hxx; push_cast; omega
          · have := abs_one_le y1 y2 hyy; push_cast; omega)
        (by rw [hg.1, hhead]; push_cast; omega)
      exact ⟨improveIntersections gb, by rw [hloop, except_bind_ok]⟩

set_option maxRecDepth 8000 in
set_option maxHeartbeats 1000000 in
/-- Counterexample for C10: a document whose single line primitive has all
four coordinate attributes parsing as finite numbers, yet rasterizing it
raises a `TypeError` from a cell write outside the grid — the declared
`height` attribute is non-numeric, so the vertical scale divides by `NaN`
and the supposedly clamped row coordinate is `NaN`. -/
theorem claim_C10_counterexample :
    (parseFloatJs "0").isSome ∧ (parseFloatJs "100").isSome ∧ (parseFloatJs "50").isSome
  ∧ renderSVGAsASCII c10doc true = .error "TypeError: Cannot set properties of undefined" := by
  exact ⟨by rfl, by rfl, by rfl, by with_unfolding_all rfl⟩

/-- C10 (amended).  Provided the document's declared dimensions parse as
finite nonzero numbers, every coordinate whose attribute text parses as a
finite number is clamped by `Math.min(size-1, Math.max(0, …))` into
`[0, size-1]`; every cell the Bresenham tracing visits stays inside the
bounding box of its (clamped) endpoints; and `drawLineOnCanvas` on clamped
in-grid endpoints performs only in-bounds writes and never raises.  (When a
declared dimension does not parse, the scaled coordinates are `NaN`, escape
the clamp, and the renderer crashes — see the counterexample.) -/
theorem claim_C10 :
    (∀ (s : String) (size : ℕ) (scale : ℚ) (d : ℤ) (q : ℚ),
      parseFloatJs s = some q → d ≠ 0 → 1 ≤ size →
      ∃ z : ℤ, scaledCoord s size scale (some d) = some z ∧ 0 ≤ z ∧ z ≤ (size : ℤ) - 1)
  ∧ (∀ x1 y1 x2 y2 : ℤ, x1 ≠ x2 → y1 ≠ y2 → ∀ fuel : ℕ,
      ∀ p ∈ bresPoints |x2 - x1| |y2 - y1| x2 y2 (if x1 < x2 then (1 : ℤ) else -1)
          (if y1 < y2 then (1 : ℤ) else -1) fuel x1 y1 (|x2 - x1| - |y2 - y1|),
        (min y1 y2 ≤ p.1 ∧ p.1 ≤ max y1 y2) ∧ (min x1 x2 ≤ p.2 ∧ p.2 ≤ max x1 x2))
  ∧ (∀ (g : Grid) (h w : ℕ) (x1 y1 x2 y2 : ℤ), GridDims g h w →
      0 ≤ x1 → x1 < w → 0 ≤ x2 → x2 < w → 0 ≤ y1 → y1 < h → 0 ≤ y2 → y2 < h →
      ∃ g', drawLineOnCanvas g (some x1) (some y1) (some x2) (some y2) = .ok g') := by
  refine ⟨?_, ?_, ?_⟩
  · intro s size scale d q hq hd hsize
    have hred : scaledCoord s size scale (some d) =
        some (min ((size : ℤ) - 1) (max 0 (jsRound (q * (size : ℚ) * scale / (d : ℚ))))) := by
      simp only [scaledCoord, hq]
      rw [if_neg hd]
    exact ⟨_, hred, le_min (by omega) (le_max_left 0 _), min_le_left _ _⟩
  · intro x1 y1 x2 y2 hxx hyy fuel p hp
    refine bresPoints_mem_box_aux x1 y1 x2 y2
      (if x1 < x2 then 1 else -1) (if y1 < y2 then 1 else -1)
      |x2 - x1| |y2 - y1| rfl rfl rfl rfl hxx hyy fuel 0 0 x1 y1
      (|x2 - x1| - |y2 - y1|) ?_ p hp
    refine ⟨by push_cast; ring, by push_cast; ring, ?_, ?_, by push_cast; ring⟩
    · have := abs_one_le x1 x2 hxx; push_cast; omega
    · have := abs_one_le y1 y2 hyy; push_cast; omega
  · intro g h w x1 y1 x2 y2 hg hx1 hx1' hx2 hx2' hy1 hy1' hy2 hy2'
    exact drawLineOnCanvas_ok g h w x1 y1 x2 y2 hg hx1 hx1' hx2 hx2' hy1 hy1' hy2 hy2'

theorem claim_C10_witness :
    ((∃ z : ℤ, scaledCoord "7.5" 60 (3/10) (some 600) = some z ∧ 0 ≤ z ∧ z ≤ 59)
  ∧ ((min 0 2 ≤ (0 : ℤ) ∧ (0 : ℤ) ≤ max 0 2) ∧ (min 0 3 ≤ (0 : ℤ) ∧ (0 : ℤ) ≤ max 0 3))
  ∧ ∃ g', drawLineOnCanvas (mkGrid 4 5) (some 0) (some 0) (some 3) (some 2) = .ok g') := by
  refine ⟨claim_C10.1 "7.5" 60 (3/10) 600 (15/2) (by with_unfolding_all rfl) (by norm_num) (by norm_num),
    claim_C10.2.1 0 0 3 2 (by norm_num) (by norm_num) 9 (0, 0) (by decide),
    claim_C10.2.2 (mkGrid 4 5) 4 5 0 0 3 2 (by constructor <;> simp [mkGrid])
      (by norm_num) (by norm_num) (by norm_num) (by norm_num)
      (by norm_num) (by norm_num) (by norm_num) (by norm_num)⟩

/-! ## Reentrancy of the generator (claim C9)

`generateDiagram` resets `labelPositions`, `seenOperations`,
`componentColors` and `colorIndex` on entry and restores `options` on exit,
so the only state a second call can observe is the oracle cursor — and the
emitted primitives never depend on an oracle draw, because a lambda's
`binderId` is generated only after its body has been drawn. -/

lemma fncp_fst (opts : Options) (σ : RenderState) (x y : ℚ) (t : String) (fs : ℚ) :
    (findNonCollidingPosition opts σ x y t fs).1 = (x, y, decide (t = "" ∨ t = "f")) := by
  by_cases h : t = "" ∨ t = "f" <;> simp [findNonCollidingPosition, h]

lemma fncp_colorIndex (opts : Options) (σ : RenderState) (x y : ℚ) (t : String) (fs : ℚ) :
    (findNonCollidingPosition opts σ x y t fs).2.colorIndex = σ.colorIndex := by
  by_cases h : t = "" ∨ t = "f" <;> simp [findNonCollidingPosition, h]

lemma varLabel_indep (opts : Options) (σ σ' : RenderState) (name : String) (idx : ℤ)
    (ic : Bool) (c : String) (x y : ℚ) :
    (varLabel opts σ name idx ic c x y).1 = (varLabel opts σ' name idx ic c x y).1 := by
  simp only [varLabel, fncp_fst]
  split_ifs <;> rfl

lemma varLabel_prims (opts : Options) (σ : RenderState) (name : String) (idx : ℤ)
    (ic : Bool) (c : String) (x y : ℚ) :
    (varLabel opts σ name idx ic c x y).1
      = (varLabel opts ⟨[], [], 0, 0⟩ name idx ic c x y).1 :=
  varLabel_indep opts σ ⟨[], [], 0, 0⟩ name idx ic c x y

lemma varLabel_colorIndex (opts : Options) (σ : RenderState) (name : String) (idx : ℤ)
    (ic : Bool) (c : String) (x y : ℚ) :
    (varLabel opts σ name idx ic c x y).2.colorIndex = σ.colorIndex := by
  simp only [varLabel, fncp_fst]
  split_ifs <;> simp [fncp_colorIndex]

lemma lamLabel_indep (opts : Options) (σ σ' : RenderState) (v : String) (body : Term)
    (cn : Option ℤ) (ir : Bool) (c : String) (bx bby : ℚ) :
    (lamLabel opts σ v body cn ir c bx bby).1 = (lamLabel opts σ' v body cn ir c bx bby).1 := by
  simp only [lamLabel, fncp_fst]
  split_ifs <;> rfl

lemma lamLabel_prims (opts : Options) (σ : RenderState) (v : String) (body : Term)
    (cn : Option ℤ) (ir : Bool) (c : String) (bx bby : ℚ) :
    (lamLabel opts σ v body cn ir c bx bby).1
      = (lamLabel opts ⟨[], [], 0, 0⟩ v body cn ir c bx bby).1 :=
  lamLabel_indep opts σ ⟨[], [], 0, 0⟩ v body cn ir c bx bby

lemma lamLabel_colorIndex (opts : Options) (σ : RenderState) (v : String) (body : Term)
    (cn : Option ℤ) (ir : Bool) (c : String) (bx bby : ℚ) :
    (lamLabel opts σ v body cn ir c bx bby).2.colorIndex = σ.colorIndex := by
  simp only [lamLabel, fncp_fst]
  split_ifs <;> simp [fncp_colorIndex]

lemma appLabel_indep (opts : Options) (σ σ' : RenderState) (f : Term) (bx bby : ℚ) :
    (appLabel opts σ f bx bby).1 = (appLabel opts σ' f bx bby).1 := by
  cases f <;> simp only [appLabel, fncp_fst] <;> split_ifs <;> rfl

lemma appLabel_prims (opts : Options) (σ : RenderState) (f : Term) (bx bby : ℚ) :
    (appLabel opts σ f bx bby).1 = (appLabel opts ⟨[], [], 0, 0⟩ f bx bby).1 :=
  appLabel_indep opts σ ⟨[], [], 0, 0⟩ f bx bby

lemma appLabel_colorIndex (opts : Options) (σ : RenderState) (f : Term) (bx bby : ℚ) :
    (appLabel opts σ f bx bby).2.colorIndex = σ.colorIndex := by
  cases f <;> simp only [appLabel, fncp_fst] <;> split_ifs <;> simp [fncp_colorIndex]

lemma drawTermExact_var_eq (opts : Options) (o : ℕ → String) (name : String) (idx : ℤ)
    (anc : List (Option String)) (ic ir : Bool) (σ : RenderState) :
    drawTermExact opts o (.var name idx) anc ic ir σ = drawVarCase opts name idx anc ic σ := rfl

lemma drawTermExact_lam_eq (opts : Options) (o : ℕ → String) (v : String) (body : Term)
    (cn : Option ℤ) (anc : List (Option String)) (ic ir : Bool) (σ : RenderState) :
    drawTermExact opts o (.lam v body cn) anc ic ir σ =
      drawLamCase opts o v body cn ir
        (drawTermExact opts o body (none :: anc) (ic || cn.isSome) false σ) := rfl

lemma drawTermExact_app_eq (opts : Options) (o : ℕ → String) (f a : Term)
    (anc : List (Option String)) (ic ir : Bool) (σ : RenderState) :
    drawTermExact opts o (.app f a) anc ic ir σ =
      drawAppCase opts o f a
        (drawTermExact opts o f anc ic false σ)
        (drawTermExact opts o a anc ic false
          (drawTermExact opts o f anc ic false σ).2.2) := rfl

lemma drawVarCase_bid (opts : Options) (name : String) (idx : ℤ)
    (anc : List (Option String)) (ic : Bool) (σ : RenderState) :
    (drawVarCase opts name idx anc ic σ).2.1 = none := rfl

lemma drawVarCase_det (opts : Options) (name : String) (idx : ℤ)
    (anc : List (Option String)) (ic : Bool) (σ σ' : RenderState)
    (hanc : ∀ b ∈ anc, b = none) (hci : σ.colorIndex = σ'.colorIndex) :
    (drawVarCase opts name idx anc ic σ).1 = (drawVarCase opts name idx anc ic σ').1
    ∧ (drawVarCase opts name idx anc ic σ).2.2.colorIndex
        = (drawVarCase opts name idx anc ic σ').2.2.colorIndex := by
  have hbid : (if idx < 0 then (none : Option (Option String)) else anc.get? idx.toNat) = none
      ∨ (if idx < 0 then (none : Option (Option String)) else anc.get? idx.toNat)
          = some none := by
    by_cases h : idx < 0
    · exact Or.inl (if_pos h)
    · rw [if_neg h]
      cases hg : anc.get? idx.toNat with
      | none => exact Or.inl rfl
      | some b => exact Or.inr (by rw [hanc b (List.get?_mem hg)])
  rcases hbid with h | h <;>
  · constructor
    · simp only [drawVarCase, h, varLabel_prims]
    · simp only [drawVarCase, h]
      rw [varLabel_colorIndex, varLabel_colorIndex, hci]

lemma drawLamCase_det (opts : Options) (o1 o2 : ℕ → String) (v : String) (body : Term)
    (cn : Option ℤ) (ir : Bool)
    (R1 R2 : (List Prim × ℚ × ℚ) × Option String × RenderState)
    (h1 : R1.1 = R2.1) (h2 : R1.2.2.colorIndex = R2.2.2.colorIndex) :
    (drawLamCase opts o1 v body cn ir R1).1 = (drawLamCase opts o2 v body cn ir R2).1
    ∧ (drawLamCase opts o1 v body cn ir R1).2.2.colorIndex
        = (drawLamCase opts o2 v body cn ir R2).2.2.colorIndex := by
  constructor
  · simp only [drawLamCase, lamLabel_prims]
    rw [h1, h2]
  · simp only [drawLamCase, lamLabel_colorIndex]
    rw [h2]

lemma drawAppCase_det (opts : Options) (o1 o2 : ℕ → String) (f a : Term)
    (F1 A1 F2 A2 : (List Prim × ℚ × ℚ) × Option String × RenderState)
    (hf : F1.1 = F2.1) (ha : A1.1 = A2.1)
    (hac : A1.2.2.colorIndex = A2.2.2.colorIndex)
    (hb : ∀ nm i, a = Term.var nm i → A1.2.1 = none ∧ A2.2.1 = none) :
    (drawAppCase opts o1 f a F1 A1).1 = (drawAppCase opts o2 f a F2 A2).1
    ∧ (drawAppCase opts o1 f a F1 A1).2.2.colorIndex
        = (drawAppCase opts o2 f a F2 A2).2.2.colorIndex := by
  have hvia : viaArgColor A1.2.2 a A1.2.1 = none ∧ viaArgColor A2.2.2 a A2.2.1 = none := by
    cases a with
    | var nm i =>
      obtain ⟨e1, e2⟩ := hb nm i rfl
      rw [e1, e2]
      exact ⟨rfl, rfl⟩
    | lam v b cn => exact ⟨rfl, rfl⟩
    | app x y => exact ⟨rfl, rfl⟩
  constructor
  · simp only [drawAppCase, hvia.1, hvia.2, appLabel_prims]
    rw [hf, ha, hac]
  · simp only [drawAppCase, hvia.1, hvia.2, appLabel_colorIndex]
    rw [hac]

lemma drawTermExact_det : ∀ (t : Term) (opts : Options) (o1 o2 : ℕ → String)
    (anc : List (Option String)) (ic ir : Bool) (σ σ' : RenderState),
    (∀ b ∈ anc, b = none) → σ.colorIndex = σ'.colorIndex →
    (drawTermExact opts o1 t anc ic ir σ).1 = (drawTermExact opts o2 t anc ic ir σ').1
    ∧ (drawTermExact opts o1 t anc ic ir σ).2.2.colorIndex
        = (drawTermExact opts o2 t anc ic ir σ').2.2.colorIndex := by
  intro t
  induction t with
  | var name idx =>
    intro opts o1 o2 anc ic ir σ σ' hanc hci
    rw [drawTermExact_var_eq, drawTermExact_var_eq]
    exact drawVarCase_det opts name idx anc ic σ σ' hanc hci
  | lam v body cn ih =>
    intro opts o1 o2 anc ic ir σ σ' hanc hci
    rw [drawTermExact_lam_eq, drawTermExact_lam_eq]
    have hb := ih opts o1 o2 (none :: anc) (ic || cn.isSome) false σ σ'
      (by
        intro b hbm
        rcases List.mem_cons.mp hbm with h | h
        · exact h
        · exact hanc b h) hci
    exact drawLamCase_det opts o1 o2 v body cn ir _ _ hb.1 hb.2
  | app f a ihf iha =>
    intro opts o1 o2 anc ic ir σ σ' hanc hci
    rw [drawTermExact_app_eq, drawTermExact_app_eq]
    have hF := ihf opts o1 o2 anc ic false σ σ' hanc hci
    have hA := iha opts o1 o2 anc ic false _ _ hanc hF.2
    refine drawAppCase_det opts o1 o2 f a _ _ _ _ hF.1 hA.1 hA.2 ?_
    intro nm i hav
    subst hav
    exact ⟨rfl, rfl⟩

lemma generateDiagram_det (g g' : GenState) (o1 o2 : ℕ → String) (e : String)
    (hopt : g'.options = g.options) :
    (generateDiagram g' o2 e).map Prod.fst = (generateDiagram g o1 e).map Prod.fst := by
  rw [generateDiagram, generateDiagram, hopt]
  cases hp : parse e with
  | error msg => rfl
  | ok t =>
    simp only [Except.map]
    have hd := (drawTermExact_det (assignIndices (convertParsedTerm t) 0 (fun _ => none))
      { g.options with
          unitSize := g.options.unitSize *
            (min ((g.options.width - 100) /
                ((calculateDimensions (assignIndices (convertParsedTerm t) 0
                    (fun _ => none))).1 * g.options.unitSize + g.options.padding))
              ((g.options.height - 100) /
                ((calculateDimensions (assignIndices (convertParsedTerm t) 0
                    (fun _ => none))).2 * g.options.unitSize + g.options.padding)) *
              (if (assignIndices (convertParsedTerm t) 0 (fun _ => none)).size > 80
               then 1/2
               else if (assignIndices (convertParsedTerm t) 0 (fun _ => none)).size > 50
               then 3/5 else 7/10)) }
      o2 o1 [] false true
      ⟨[], [], 0, g'.oracleAt⟩ ⟨[], [], 0, g.oracleAt⟩ (by simp) rfl).1
    exact congrArg Except.ok (congrArg (fun l => Doc.mk g.options.width g.options.height
      g.options.backgroundColor _ _ l) (congrArg Prod.fst hd))

lemma generateDiagram_options (g : GenState) (o : ℕ → String) (e : String)
    (d : Doc) (g1 : GenState) (h : generateDiagram g o e = .ok (d, g1)) :
    g1.options = g.options := by
  rw [generateDiagram] at h
  cases hp : parse e with
  | error m =>
    rw [hp] at h
    exact absurd h (by simp)
  | ok t =>
    rw [hp] at h
    simp only [Except.ok.injEq, Prod.mk.injEq] at h
    rw [← h.2]

lemma generateDiagram_error (g : GenState) (o : ℕ → String) (e m : String) :
    generateDiagram g o e = .error m ↔ parse e = .error m := by
  rw [generateDiagram]
  cases parse e <;> simp

/-- C9: for every expression string on which the pipeline succeeds, two
sequential calls to `generateDiagram` with that string produce identical
output documents — the second call, run from the state the first call left
behind and with an arbitrary fresh oracle (`Date.now`/`Math.random`
stream), returns exactly the first call's document, and the first call
hands back the caller's options unchanged.  (On a parse failure both calls
fail with the same error.)  The per-call bookkeeping — label-position
registry, seen-operations set, component-colour map and colour index — is
reset on entry, so no state leaks from one call into the next. -/
theorem claim_C9 (g : GenState) (o1 o2 : ℕ → String) (e : String) :
    match generateDiagram g o1 e with
    | .ok (d1, g1) =>
        g1.options = g.options
        ∧ (generateDiagram g1 o2 e).map Prod.fst = .ok d1
    | .error msg => generateDiagram g o2 e = .error msg := by
  cases hgen : generateDiagram g o1 e with
  | error msg =>
    show generateDiagram g o2 e = Except.error msg
    exact (generateDiagram_error g o2 e msg).mpr ((generateDiagram_error g o1 e msg).mp hgen)
  | ok p =>
    obtain ⟨d1, g1⟩ := p
    have hopt := generateDiagram_options g o1 e d1 g1 hgen
    refine ⟨hopt, ?_⟩
    rw [generateDiagram_det g g1 o1 o2 e hopt, hgen]
    rfl

end Jambda
